/-
A verification development for the signifier retrieval system
(registry / intent matcher / structured subsumption engine / ranker /
orchestrator).  Python code is shallowly embedded: Python scalars become
an explicit `PyVal` type, floats are modelled as rationals, dictionaries
become association lists, and fallible code returns `Except`/`Option`.
-/
import Mathlib

/-! ### Python scalar values

`PyVal` models the Python scalars that flow through the system
(condition values and context feature values).  Python `bool` is a
subclass of `int`, so `isinstance(x, (int, float))` is true for
booleans; `pyIsNumeric` reflects that.  Floats are modelled as `ℚ`. -/

inductive PyVal where
  | pint (n : ℤ)
  | pfloat (q : ℚ)
  | pbool (b : Bool)
  | pstr (s : String)
  | pnone
deriving DecidableEq, Repr

namespace PyVal

/-- `isinstance(v, (int, float))` in Python; booleans are ints. -/
def pyIsNumeric : PyVal → Bool
  | pint _ => true
  | pfloat _ => true
  | pbool _ => true
  | _ => false

/-- `isinstance(v, str)`. -/
def pyIsStr : PyVal → Bool
  | pstr _ => true
  | _ => false

/-- Numeric value of an int/float/bool (`True` counts as 1, `False` as 0). -/
def toRat : PyVal → Option ℚ
  | pint n => some (n : ℚ)
  | pfloat q => some q
  | pbool b => some (if b then 1 else 0)
  | _ => none

end PyVal

/-- Digits of a decimal literal to a natural number. -/
def digitsToNat (cs : List Char) : Nat :=
  cs.foldl (fun acc c => acc * 10 + (c.toNat - 48)) 0

/-- Model of Python `float(s)` on a string: an optional sign, then a
decimal literal `digits`, `digits.digits`, `.digits` or `digits.`.
Surrounding whitespace is stripped.  Anything else raises `ValueError`
(modelled as `none`).  (Exotic forms like exponents or `inf` are outside
the inputs this development evaluates on.) -/
def pyFloatOfString (s : String) : Option ℚ :=
  let cs := ((s.toList.dropWhile Char.isWhitespace).reverse.dropWhile
    Char.isWhitespace).reverse
  let signAndRest : ℤ × List Char :=
    match cs with
    | '+' :: t => (1, t)
    | '-' :: t => (-1, t)
    | t => (1, t)
  let sign := signAndRest.1
  let rest := signAndRest.2
  let ip := rest.takeWhile (·.isDigit)
  let r2 := rest.drop ip.length
  match r2 with
  | [] => if ip.isEmpty then none else some ((sign : ℚ) * digitsToNat ip)
  | '.' :: fp =>
      if fp.all (·.isDigit) && !(ip.isEmpty && fp.isEmpty) then
        some ((sign : ℚ) * ((digitsToNat ip : ℚ) + (digitsToNat fp : ℚ) / (10 : ℚ) ^ fp.length))
      else none
  | _ => none

/-- `float(v)` applied to a non-numeric Python value: strings are parsed,
everything else raises `TypeError` (modelled as `none`). -/
def pyFloatOfVal : PyVal → Option ℚ
  | .pstr s => pyFloatOfString s
  | _ => none

/-- Python comparison of two scalars for the ordered operators:
numbers (ints, floats, bools) compare numerically, strings compare
lexicographically, and any other combination raises `TypeError`
(modelled as `none`). -/
def pyCompare : PyVal → PyVal → Option Ordering
  | .pstr a, .pstr b => some (compare a b)
  | a, b =>
      match a.toRat, b.toRat with
      | some x, some y => some (compare x y)
      | _, _ => none

/-- Python `==` on scalars: numbers compare numerically (`True == 1`),
strings compare as strings, `None == None`, and any cross-type
comparison is `False` (no error). -/
def pyEq : PyVal → PyVal → Bool
  | .pstr a, .pstr b => a = b
  | .pnone, .pnone => true
  | a, b =>
      match a.toRat, b.toRat with
      | some x, some y => x = y
      | _, _ => false

/-- `str(v)` for a scalar.  The rendering of floats is modelled by the
rational's string form; no claim inspects the text of a rendered
float. -/
def pyStrOfVal : PyVal → String
  | .pint n => toString n
  | .pfloat q => toString q
  | .pbool true => "True"
  | .pbool false => "False"
  | .pstr s => s
  | .pnone => "None"

/-! ### JSON values

Models the result of Python `json.loads`: integers stay ints, other
numbers become floats. -/

inductive Json where
  | jnull
  | jbool (b : Bool)
  | jint (n : ℤ)
  | jnum (q : ℚ)
  | jstr (s : String)
  | jarr (xs : List Json)
  | jobj (fields : List (String × Json))
deriving Repr

namespace Json

/-- `d.get(key)` on an object. -/
def objGet (j : Json) (key : String) : Option Json :=
  match j with
  | jobj fs => (fs.find? (fun f => f.1 = key)).map (·.2)
  | _ => none

/-- A single quote character, for Python repr output. -/
def sq : String := String.singleton (Char.ofNat 39)

mutual

/-- Python `repr` of a loaded JSON value (`str` of a dict/list uses the
repr of its elements).  The exact text is never inspected by a claim;
it only feeds the tokenizer. -/
def pyRepr : Json → String
  | jnull => "None"
  | jbool true => "True"
  | jbool false => "False"
  | jint n => toString n
  | jnum q => toString q
  | jstr s => sq ++ s ++ sq
  | jarr xs => "[" ++ String.intercalate ", " (pyReprList xs) ++ "]"
  | jobj fs =>
      String.singleton (Char.ofNat 123) ++
        String.intercalate ", " (pyReprFields fs) ++
        String.singleton (Char.ofNat 125)

/-- Reprs of the elements of a JSON array. -/
def pyReprList : List Json → List String
  | [] => []
  | x :: t => pyRepr x :: pyReprList t

/-- Reprs of the fields of a JSON object. -/
def pyReprFields : List (String × Json) → List String
  | [] => []
  | (k, v) :: t => (sq ++ k ++ sq ++ ": " ++ pyRepr v) :: pyReprFields t

end

/-- Python `str(v)`: like `repr` except that a top-level string is
unquoted. -/
def pyStr : Json → String
  | jstr s => s
  | j => pyRepr j

/-- Python truthiness of a loaded JSON value (`if structured`). -/
def pyTruthy : Json → Bool
  | jnull => false
  | jbool b => b
  | jint n => n ≠ 0
  | jnum q => q ≠ 0
  | jstr s => s ≠ ""
  | jarr xs => !xs.isEmpty
  | jobj fs => !fs.isEmpty

end Json

/-! ### Data model (`src/models/signifier.py`)

Pydantic models become plain structures.  Field validators that the
claims depend on (non-empty strings, the fixed operator set) are
modelled where they matter, at the construction sites that can fail. -/

inductive SignifierStatus where
  | active
  | deprecated
deriving DecidableEq, Repr

/-- A single value condition (`operator`, `value`, optional `datatype`). -/
structure ValueCondition where
  operator : String
  value : PyVal
  datatype : Option String := none
deriving Repr

/-- A structured condition over one (artifact, property) pair. -/
structure StructuredCondition where
  artifact : String
  property_affordance : String
  value_conditions : List ValueCondition := []
deriving Repr

/-- Intent description: natural-language text plus the optional
structured JSON object. -/
structure IntentionDescription where
  nl_text : String
  structured : Option Json := none
deriving Repr

/-- A Turtle text at the `rdflib` boundary, represented by its parse
outcome: `none` is a text `rdflib` fails to parse, `some g` a text
parsing to a graph whose canonical serialization is `g`. -/
abbrev RdfText := Option String

/-- Context requirements: structured conditions plus optional SHACL
shape text and NL description.  `generate_rdf` re-parses the shapes
text with `rdflib` (`representation.py:290-298`), so the text is
carried by its parse outcome: `some none` is a stored shapes text that
`rdflib` rejects. -/
structure IntentContext where
  structured_conditions : List StructuredCondition := []
  shacl_shapes : Option RdfText := none
  nl_description : Option String := none
deriving Repr

/-- Provenance metadata (`created_at` is irrelevant to every claim and
omitted from the model). -/
structure Provenance where
  created_by : String
  source : String := "manual"
deriving DecidableEq, Repr

/-- The canonical signifier document. -/
structure Signifier where
  signifier_id : String
  version : Nat := 1
  status : SignifierStatus := .active
  intent : IntentionDescription
  context : IntentContext
  affordance_uri : String
  provenance : Provenance
deriving Repr

namespace Signifier

/-- `Signifier.get_property_keys`: the (artifact, property) pairs of the
structured conditions. -/
def get_property_keys (s : Signifier) : List (String × String) :=
  s.context.structured_conditions.map (fun c => (c.artifact, c.property_affordance))

end Signifier

/-! ### Structured Subsumption Engine (`src/subsumption/sse.py`) -/

/-- Context features: `{artifact_uri: {property_uri: value}}` as nested
association lists. -/
abbrev ContextFeatures := List (String × List (String × PyVal))

/-- `context_features.get(artifact, {})`. -/
def ContextFeatures.artifactData (ctx : ContextFeatures) (artifact : String) :
    List (String × PyVal) :=
  ((ctx.find? (fun e => e.1 = artifact)).map (·.2)).getD []

/-- Lookup of a property value inside an artifact's data. -/
def propLookup (data : List (String × PyVal)) (p : String) : Option PyVal :=
  (data.find? (fun e => e.1 = p)).map (·.2)

structure SSEViolation where
  artifact : String
  property_affordance : String
  operator : String
  expected_value : PyVal
  actual_value : PyVal
  message : String
deriving Repr

structure SSEResult where
  sse_pass : Bool
  violations : List SSEViolation := []
  conditions_checked : Nat := 0
  missing_properties : List (String × String) := []
deriving Repr

namespace SSE

/-- The human-readable operator text used in violation messages. -/
def operatorText (op : String) : String :=
  if op = "greaterThan" then "greater than"
  else if op = "lessThan" then "less than"
  else if op = "greaterEqual" then "greater than or equal to"
  else if op = "lessEqual" then "less than or equal to"
  else if op = "equals" then "equal to"
  else if op = "notEquals" then "not equal to"
  else op

/-- `SSE._format_violation_message`. -/
def formatViolationMessage (cond : ValueCondition) (actual : PyVal) : String :=
  "Expected value to be " ++ operatorText cond.operator ++ " " ++ pyStrOfVal cond.value ++
    ", but got " ++ pyStrOfVal actual

/-- `SSE._evaluate_condition`: optional type coercion (a failed coercion
is logged and leaves the value unchanged), then the operator dispatch;
a `TypeError` in an ordered comparison is caught and yields `False`,
and an unknown operator yields `False`. -/
def evaluateCondition (enableTypeCoercion : Bool) (cond : ValueCondition)
    (actualValue : PyVal) : Bool :=
  let expected := cond.value
  let actual :=
    if enableTypeCoercion then
      if expected.pyIsNumeric && !actualValue.pyIsNumeric then
        match pyFloatOfVal actualValue with
        | some q => PyVal.pfloat q
        | none => actualValue
      else if expected.pyIsStr && !actualValue.pyIsStr then
        PyVal.pstr (pyStrOfVal actualValue)
      else actualValue
    else actualValue
  if cond.operator = "greaterThan" then
    match pyCompare actual expected with
    | some o => o = .gt
    | none => false
  else if cond.operator = "lessThan" then
    match pyCompare actual expected with
    | some o => o = .lt
    | none => false
  else if cond.operator = "greaterEqual" then
    match pyCompare actual expected with
    | some o => o ≠ .lt
    | none => false
  else if cond.operator = "lessEqual" then
    match pyCompare actual expected with
    | some o => o ≠ .gt
    | none => false
  else if cond.operator = "equals" then
    pyEq actual expected
  else if cond.operator = "notEquals" then
    !pyEq actual expected
  else
    false

/-- Evaluation of the value conditions of one structured condition whose
property is present, returning the violations and the number of
conditions checked. -/
def evalValueConditions (enableTypeCoercion : Bool) (c : StructuredCondition)
    (actual : PyVal) : List SSEViolation × Nat :=
  c.value_conditions.foldl
    (fun acc vc =>
      if evaluateCondition enableTypeCoercion vc actual then
        (acc.1, acc.2 + 1)
      else
        (acc.1 ++ [{ artifact := c.artifact,
                     property_affordance := c.property_affordance,
                     operator := vc.operator,
                     expected_value := vc.value,
                     actual_value := actual,
                     message := formatViolationMessage vc actual }], acc.2 + 1))
    ([], 0)

/-- The violation recorded for a missing property under policy `fail`. -/
def missingViolation (c : StructuredCondition) : SSEViolation :=
  { artifact := c.artifact,
    property_affordance := c.property_affordance,
    operator := "missing",
    expected_value := .pstr "<present>",
    actual_value := .pnone,
    message := "Missing property " ++ c.property_affordance ++ " on artifact " ++ c.artifact }

/-- The per-condition loop body of `SSE.evaluate`, accumulating
(violations, missing pairs, conditions checked). -/
def evalLoop (policy : String) (enableTypeCoercion : Bool) (ctx : ContextFeatures) :
    List StructuredCondition → List SSEViolation × List (String × String) × Nat
  | [] => ([], [], 0)
  | c :: rest =>
      let tail := evalLoop policy enableTypeCoercion ctx rest
      let data := ctx.artifactData c.artifact
      match propLookup data c.property_affordance with
      | none =>
          let vs := if policy = "fail" then [missingViolation c] else []
          (vs ++ tail.1, (c.artifact, c.property_affordance) :: tail.2.1, tail.2.2)
      | some actual =>
          let r := evalValueConditions enableTypeCoercion c actual
          (r.1 ++ tail.1, tail.2.1, r.2 + tail.2.2)

/-- `SSE.evaluate`: a signifier with no structured conditions trivially
passes; otherwise every condition is checked against the context and
`sse_pass` holds exactly when no violation was recorded. -/
def evaluate (policy : String) (enableTypeCoercion : Bool)
    (conds : List StructuredCondition) (ctx : ContextFeatures) : SSEResult :=
  if conds.isEmpty then
    { sse_pass := true, conditions_checked := 0 }
  else
    let r := evalLoop policy enableTypeCoercion ctx conds
    { sse_pass := r.1.isEmpty,
      violations := r.1,
      conditions_checked := r.2.2,
      missing_properties := r.2.1 }

end SSE

/-! ### Stable descending sort

Both `list.sort(key=…, reverse=True)` call sites (IM v0 and the ranker)
use Python's stable sort.  `sortDescBy` is a stable insertion sort:
an element moves past another only when the other's key is strictly
greater, so elements with equal keys keep their input order — exactly
the stability contract of Python's sort with `reverse=True`. -/

/-- Insert into a descending-sorted list, after every element with a
strictly greater key and before the first element whose key is ≤. -/
def insertDescBy (key : α → ℚ) (a : α) : List α → List α
  | [] => [a]
  | b :: t => if key a < key b then b :: insertDescBy key a t else a :: b :: t

/-- Stable sort, descending by `key` (model of Python's
`sort(key=…, reverse=True)`). -/
def sortDescBy (key : α → ℚ) : List α → List α
  | [] => []
  | a :: t => insertDescBy key a (sortDescBy key t)

/-! ### Intent Matcher v0 (`src/matching/string_matcher.py`) -/

/-- A word character of the regex `\w` (ASCII fragment; the inputs this
development evaluates on are ASCII). -/
def isWordChar (c : Char) : Bool := c.isAlphanum || c = '_'

/-- Maximal runs of word characters (`re.findall(r'\b\w+\b', text)`). -/
def wordRuns : List Char → List Char → List String
  | [], [] => []
  | [], run => [String.mk run.reverse]
  | c :: rest, run =>
      if isWordChar c then wordRuns rest (c :: run)
      else if run.isEmpty then wordRuns rest []
      else String.mk run.reverse :: wordRuns rest []

/-- `StringContainsMatcher._tokenize`: lowercase unless case-sensitive,
extract word tokens, keep those of length > 2. -/
def tokenize (text : String) (caseSensitive : Bool) : List String :=
  let cs := if caseSensitive then text.toList else text.toList.map Char.toLower
  (wordRuns cs []).filter (fun tok => tok.length > 2)

/-- The signifier dictionary consumed by the matcher (the relevant
fields of `model_dump()`): `signifier_id`, `intent.nl_text`,
`intent.structured`. -/
structure MatchSignifier where
  signifier_id : String
  nl_text : String
  structured : Option Json := none
deriving Repr

/-- The token set of a signifier: tokens of `nl_text` together with
tokens of `str(structured)` (`""` when `structured` is falsy).
Membership in the Python `set` is membership in the combined list. -/
def signifierTokens (sig : MatchSignifier) (caseSensitive : Bool) : List String :=
  let structuredText :=
    match sig.structured with
    | some j => if j.pyTruthy then j.pyStr else ""
    | none => ""
  tokenize sig.nl_text caseSensitive ++ tokenize structuredText caseSensitive

/-- `StringContainsMatcher._compute_similarity`. -/
def computeSimilarity (queryTokens : List String) (sig : MatchSignifier)
    (caseSensitive : Bool) : ℚ :=
  let allSignifierTokens := signifierTokens sig caseSensitive
  if allSignifierTokens.isEmpty then 0
  else
    let matchCount := (queryTokens.filter (fun t => allSignifierTokens.contains t)).length
    if queryTokens.isEmpty then 0 else (matchCount : ℚ) / (queryTokens.length : ℚ)

/-- `StringContainsMatcher._get_matched_tokens`. -/
def getMatchedTokens (queryTokens : List String) (sig : MatchSignifier)
    (caseSensitive : Bool) : List String :=
  queryTokens.filter (fun t => (signifierTokens sig caseSensitive).contains t)

structure MatchResult where
  signifier_id : String
  similarity : ℚ
  matched_tokens : List String := []
deriving DecidableEq, Repr

/-- `StringContainsMatcher.match`: empty query raises `ValueError`;
empty signifier list returns `[]`; otherwise only signifiers with
similarity > 0 are kept, sorted descending by similarity (stable), and
the top `k` returned. -/
def stringMatch (intentQuery : String) (signifiers : List MatchSignifier)
    (k : Nat) (caseSensitive : Bool) : Except String (List MatchResult) :=
  if intentQuery = "" then
    .error "intent_query cannot be empty"
  else if signifiers.isEmpty then
    .ok []
  else
    let queryTokens := tokenize intentQuery caseSensitive
    let results := signifiers.filterMap (fun sig =>
      let similarity := computeSimilarity queryTokens sig caseSensitive
      if similarity > 0 then
        some { signifier_id := sig.signifier_id,
               similarity := similarity,
               matched_tokens := getMatchedTokens queryTokens sig caseSensitive }
      else none)
    .ok ((sortDescBy (·.similarity) results).take k)

/-! ### Ranker & Policy (`src/ranking/ranker.py`) -/

/-- A signal value: a score or a boolean gate value. -/
inductive SignalValue where
  | num (q : ℚ)
  | flag (b : Bool)
deriving DecidableEq, Repr

/-- One ranking signal. -/
structure RankingSignal where
  name : String
  value : SignalValue
  weight : ℚ := 0
  is_gate : Bool := false
deriving DecidableEq, Repr

/-- The per-candidate inputs to `Ranker.rank` (`candidate.get(…)` with
its defaults; `sse_pass` is `none` when the key is absent from the
candidate dictionary). -/
structure RankCandidate where
  signifier_id : String
  intent_similarity : ℚ := 0
  shacl_conforms : Bool := true
  shacl_has_shapes : Bool := false
  sse_pass : Option Bool := none
  constraint_count : Nat := 0
deriving DecidableEq, Repr

/-- Ranker configuration (`weights` with the per-key defaults already
resolved, the two gate switches, and the specificity boost). -/
structure RankerConfig where
  weight_intent : ℚ := 7/10
  weight_shacl : ℚ := 2/10
  weight_sse : ℚ := 1/10
  enable_shacl_gate : Bool := true
  enable_sse_gate : Bool := false
  specificity_boost : ℚ := 1/100
deriving DecidableEq, Repr

structure RankedResult where
  signifier_id : String
  final_score : ℚ
  signals : List RankingSignal := []
  passed_gates : Bool := true
deriving DecidableEq, Repr

namespace Ranker

/-- The signal list built for one candidate: intent similarity always,
the SHACL signal when the candidate has shapes, the SSE signal when the
candidate dictionary carries an `sse_pass` key. -/
def signalsOf (cfg : RankerConfig) (c : RankCandidate) : List RankingSignal :=
  [{ name := "intent_similarity", value := .num c.intent_similarity,
     weight := cfg.weight_intent, is_gate := false }] ++
  (if c.shacl_has_shapes then
    [{ name := "shacl_conforms", value := .flag c.shacl_conforms,
       weight := cfg.weight_shacl, is_gate := cfg.enable_shacl_gate }]
   else []) ++
  (match c.sse_pass with
   | some v =>
       [{ name := "sse_pass", value := .flag v,
          weight := cfg.weight_sse, is_gate := cfg.enable_sse_gate }]
   | none => [])

/-- The gate bookkeeping of `Ranker.rank`: `passed_gates` starts true and
is cleared by an enabled SHACL gate on a shape-carrying non-conforming
candidate, or by an enabled SSE gate on `sse_pass=False`. -/
def passedGates (cfg : RankerConfig) (c : RankCandidate) : Bool :=
  !(c.shacl_has_shapes && !c.shacl_conforms && cfg.enable_shacl_gate) &&
  !(c.sse_pass = some false && cfg.enable_sse_gate)

/-- Normalization inside `_calculate_weighted_score`: booleans to 0/1,
numeric kept as-is. -/
def normalizeValue : SignalValue → ℚ
  | .num q => q
  | .flag b => if b then 1 else 0

/-- `Ranker._calculate_weighted_score`: weighted average over the
non-gate signals, 0 when the non-gate weights sum to 0. -/
def calculateWeightedScore (signals : List RankingSignal) : ℚ :=
  let nonGate := signals.filter (fun s => !s.is_gate)
  let totalWeight := (nonGate.map (·.weight)).sum
  let weightedSum := (nonGate.map (fun s => normalizeValue s.value * s.weight)).sum
  if totalWeight = 0 then 0 else weightedSum / totalWeight

/-- The per-candidate body of `Ranker.rank`: gates, weighted score, and
the specificity boost (`min(1.0, score + boost·count)`, applied only
when `constraint_count > 0`). -/
def rankOne (cfg : RankerConfig) (c : RankCandidate) : RankedResult :=
  let signals := signalsOf cfg c
  let passed := passedGates cfg c
  let final_score :=
    if passed then
      let s := calculateWeightedScore signals
      if c.constraint_count > 0 then
        min 1 (s + c.constraint_count * cfg.specificity_boost)
      else s
    else 0
  { signifier_id := c.signifier_id, final_score := final_score,
    signals := signals, passed_gates := passed }

/-- `Ranker.rank`: score every candidate, then
`sort(key=final_score, reverse=True)` (stable). -/
def rank (cfg : RankerConfig) (candidates : List RankCandidate) : List RankedResult :=
  sortDescBy (·.final_score) (candidates.map (rankOne cfg))

end Ranker

/-! ### Memory store (`src/storage/memory_store.py`)

The three stores become three association lists.  An RDF text arriving
from a caller is an `RdfText`, its parse outcome: `none` is a text
`rdflib` fails to parse, `some g` a text parsing to a graph whose
canonical serialization is `g`.  `store_rdf_graph` writes
`serialize(parse(text))`; the serializer always terminates its output
with a newline, modelled by `String.push '\n'`. -/

structure StoreState where
  docs : List (String × Signifier) := []
  rdf : List ((String × Nat) × String) := []
  property_index : List ((String × String) × List String) := []

namespace MemoryStore

/-- `get_json_document`. -/
def getJsonDocument (st : StoreState) (signifierId : String) : Option Signifier :=
  ((st.docs.find? (fun e => e.1 = signifierId))).map (·.2)

/-- `store_json_document`: overwrite `json/<id>.json`. -/
def storeJsonDocument (st : StoreState) (s : Signifier) : StoreState :=
  if st.docs.any (fun e => e.1 = s.signifier_id) then
    { st with docs :=
        st.docs.map (fun e => if e.1 = s.signifier_id then (e.1, s) else e) }
  else
    { st with docs := st.docs ++ [(s.signifier_id, s)] }

/-- `store_rdf_graph`: parse, then serialize to `rdf/<id>_v<ver>.ttl`;
unparseable data raises `ValueError`. -/
def storeRdfGraph (st : StoreState) (signifierId : String) (version : Nat)
    (rdfData : RdfText) : Except String StoreState :=
  match rdfData with
  | none => .error "Invalid RDF data"
  | some g =>
      let content := g.push '\n'
      let key := (signifierId, version)
      if st.rdf.any (fun e => e.1 = key) then
        .ok { st with rdf :=
                st.rdf.map (fun e => if e.1 = key then (e.1, content) else e) }
      else
        .ok { st with rdf := st.rdf ++ [(key, content)] }

/-- Membership semantics of one inverted-index entry. -/
def indexLookup (st : StoreState) (key : String × String) : List String :=
  ((st.property_index.find? (fun e => e.1 = key)).map (·.2)).getD []

/-- Add one id to one index entry (creating the entry when absent;
`set.add` never duplicates). -/
def indexAdd (idx : List ((String × String) × List String))
    (key : String × String) (signifierId : String) :
    List ((String × String) × List String) :=
  if idx.any (fun e => e.1 = key) then
    idx.map (fun e =>
      if e.1 = key then
        (e.1, if e.2.contains signifierId then e.2 else e.2 ++ [signifierId])
      else e)
  else
    idx ++ [(key, [signifierId])]

/-- `update_property_index`: insert the signifier's id under each of its
(artifact, property) keys.  Nothing is ever removed here. -/
def updatePropertyIndex (st : StoreState) (s : Signifier) : StoreState :=
  { st with
    property_index :=
      s.get_property_keys.foldl
        (fun idx key => indexAdd idx key s.signifier_id) st.property_index }

/-- `_get_rdf_path`: the file name `<id>_v<version>.ttl` under
`rdf/`. -/
def rdfFileName (signifierId : String) (version : Nat) : String :=
  signifierId ++ "_v" ++ toString version ++ ".ttl"

/-- `Path.glob` of the pattern `<pre>*<suf>` against a file name: the
name starts with `pre`, ends with `suf`, and is long enough for the
two parts not to overlap. -/
def globMatch (pre suf name : String) : Bool :=
  pre.toList.isPrefixOf name.toList && suf.toList.isSuffixOf name.toList &&
    decide (pre.length + suf.length ≤ name.length)

/-- `delete_signifier` with `version=None`: unlink every RDF file whose
name matches the glob `<id>_v*.ttl` (which can also match *another*
signifier's files, e.g. deleting `a` unlinks `a_vx_v1.ttl`), remove
the JSON document, and remove the id from every index entry, pruning
entries that become empty. -/
def deleteSignifier (st : StoreState) (signifierId : String) : StoreState :=
  { docs := st.docs.filter (fun e => e.1 ≠ signifierId),
    rdf := st.rdf.filter (fun e =>
      !globMatch (signifierId ++ "_v") ".ttl" (rdfFileName e.1.1 e.1.2)),
    property_index :=
      (st.property_index.map (fun e => (e.1, e.2.filter (fun i => i ≠ signifierId)))).filter
        (fun e => !e.2.isEmpty) }

end MemoryStore

/-! ### Signifier registry (`src/storage/registry.py`) -/

namespace SignifierRegistry

open MemoryStore

/-- `RepresentationService.generate_rdf` serializes the canonical form
through `rdflib`; the payload is abstracted to a canonical string for
the signifier version, since `rdflib` re-parses its own output.  When
`context.shacl_shapes` carries a text that `rdflib` rejects
(`some none`), `shapes_graph.parse` raises and no text is produced
(`representation.py:290-298`) — the result is the generated text's
parse outcome. -/
def generateRdf (s : Signifier) : RdfText :=
  match s.context.shacl_shapes with
  | some none => none
  | _ => some ("canonical-rdf " ++ s.signifier_id ++ " v" ++ toString s.version)

/-- `normalize_signifier` is the identity (a placeholder in the code). -/
def normalizeSignifier (s : Signifier) : Signifier := s

/-- `SignifierRegistry.create`: fail on an existing id; store the JSON
document; update the inverted index; then store the RDF graph — the
caller-provided text if any (a parse failure here is only logged), the
generated text otherwise.  A raise of `generate_rdf` happens *after*
the document and index writes and is not caught, so the error carries
the mutated store (Python side effects survive a propagating
exception). -/
def create (st : StoreState) (s : Signifier) (rdfData : Option RdfText) :
    Except (String × StoreState) StoreState :=
  if (getJsonDocument st s.signifier_id).isSome then
    .error ("already exists", st)
  else
    let normalized := normalizeSignifier s
    let st1 := storeJsonDocument st normalized
    let st2 := updatePropertyIndex st1 normalized
    match rdfData with
    | some d =>
        match storeRdfGraph st2 normalized.signifier_id normalized.version d with
        | .ok st3 => .ok st3
        | .error _ => .ok st2
    | none =>
        match storeRdfGraph st2 normalized.signifier_id normalized.version
            (generateRdf normalized) with
        | .ok st3 => .ok st3
        | .error e => .error (e, st2)

/-- `SignifierRegistry.update`: fail on a missing id; optionally bump the
version to `previous current + 1`; store the document, update the index
(the previous version's entries are not removed), and regenerate the
RDF graph.  As in `create`, a raise of `generate_rdf` happens after the
document and index writes; the error carries the mutated store. -/
def update (st : StoreState) (s : Signifier) (createNewVersion : Bool) :
    Except (String × StoreState) StoreState :=
  match getJsonDocument st s.signifier_id with
  | none => .error ("not found", st)
  | some existing =>
      let s1 := if createNewVersion then { s with version := existing.version + 1 } else s
      let normalized := normalizeSignifier s1
      let st1 := storeJsonDocument st normalized
      let st2 := updatePropertyIndex st1 normalized
      match storeRdfGraph st2 normalized.signifier_id normalized.version
          (generateRdf normalized) with
      | .ok st3 => .ok st3
      | .error e => .error (e, st2)

/-- `SignifierRegistry.delete`. -/
def delete (st : StoreState) (signifierId : String) : StoreState :=
  deleteSignifier st signifierId

/-- `SignifierRegistry.update_status`: fetch, set the status, update in
place (no new version); a missing id returns `None` without writing. -/
def updateStatus (st : StoreState) (signifierId : String)
    (status : SignifierStatus) : Except (String × StoreState) StoreState :=
  match getJsonDocument st signifierId with
  | none => .ok st
  | some s => update st { s with status := status } false

/-- `SignifierRegistry.list_signifiers`: all documents in store order,
optional status and affordance filters, then `[offset : offset+limit]`. -/
def listSignifiers (st : StoreState) (status : Option SignifierStatus)
    (affordance : Option String) (limit offset : Nat) : List Signifier :=
  let all := st.docs.map (·.2)
  let f1 := match status with
    | none => all
    | some t => all.filter (fun s => s.status = t)
  let f2 := match affordance with
    | none => f1
    | some a => f1.filter (fun s => s.affordance_uri = a)
  (f2.drop offset).take limit

end SignifierRegistry

/-! ### Registry operation sequences -/

/-- One registry operation of a create/update/delete/update-status
history. -/
inductive RegistryOp where
  | create (s : Signifier) (rdfData : Option RdfText)
  | update (s : Signifier) (createNewVersion : Bool)
  | delete (signifierId : String)
  | updateStatus (signifierId : String) (status : SignifierStatus)

/-- Apply one operation; a raised error leaves the store as the writes
performed before the raise left it (the error carries that store). -/
def registryStep (st : StoreState) (op : RegistryOp) : StoreState :=
  match op with
  | .create s r =>
      match SignifierRegistry.create st s r with
      | .ok st' => st'
      | .error est => est.2
  | .update s b =>
      match SignifierRegistry.update st s b with
      | .ok st' => st'
      | .error est => est.2
  | .delete i => SignifierRegistry.delete st i
  | .updateStatus i t =>
      match SignifierRegistry.updateStatus st i t with
      | .ok st' => st'
      | .error est => est.2

/-- Run a history of registry operations. -/
def registryRun : StoreState → List RegistryOp → StoreState
  | st, [] => st
  | st, op :: rest => registryRun (registryStep st op) rest

/-- The empty store. -/
def emptyStore : StoreState := {}

/-! ### Orchestrator, IM stage (`src/orchestrator/orchestrator.py`) -/

/-- The fields of `Signifier.model_dump()` that the v0 matcher reads. -/
def modelDump (s : Signifier) : MatchSignifier :=
  { signifier_id := s.signifier_id,
    nl_text := s.intent.nl_text,
    structured := s.intent.structured }

/-- One IM candidate: id, similarity, and the signifier fetched back
from the registry. -/
structure IMCandidate where
  signifier_id : String
  intent_similarity : ℚ
  signifier : Signifier
deriving Repr

/-- `RetrievalOrchestrator._execute_intent_matching` with the lexical
matcher (v0): enumerate `list_signifiers(limit=10000)` — no status
filter — dump each signifier, match against the query, then re-fetch
each matched signifier (a concurrent delete would skip it). -/
def executeIntentMatching (st : StoreState) (intentQuery : String) (k : Nat) :
    Except String (List IMCandidate) :=
  let allSignifiers := SignifierRegistry.listSignifiers st none none 10000 0
  let signifierDicts := allSignifiers.map modelDump
  match stringMatch intentQuery signifierDicts k false with
  | .error e => .error e
  | .ok matchResults =>
      .ok (matchResults.filterMap (fun m =>
        (MemoryStore.getJsonDocument st m.signifier_id).map (fun s =>
          { signifier_id := m.signifier_id,
            intent_similarity := m.similarity,
            signifier := s })))

/-! ### Representation service (`src/storage/representation.py`)

`rdflib` parsing of the Turtle text is the model boundary: the parsed
graph is taken as input, a list of triples.  `graph.value` returns the
first matching object, `graph.subjects` the subjects in graph order.
`json.loads` is the second boundary, passed in as an oracle
`String → Option Json` (`none` models a `JSONDecodeError`). -/

inductive RdfNode where
  | uri (s : String)
  | bnode (n : Nat)
  | lit (s : String)
deriving DecidableEq, Repr

/-- A parsed RDF graph: subject, predicate URI, object. -/
abbrev RdfGraph := List (RdfNode × String × RdfNode)

/-- `str(node)`. -/
def nodeStr : RdfNode → String
  | .uri s => s
  | .bnode n => "N" ++ toString n
  | .lit s => s

/-- Python falsiness of an `rdflib` term (`URIRef`/`Literal` are string
subclasses: falsy exactly when empty). -/
def nodeFalsy (n : RdfNode) : Bool := nodeStr n = ""

/-- `graph.subjects(pred, obj)`. -/
def subjectsOf (g : RdfGraph) (pred : String) (obj : RdfNode) : List RdfNode :=
  (g.filter (fun t => t.2.1 = pred && t.2.2 = obj)).map (·.1)

/-- `graph.value(subj, pred)`. -/
def valueOf (g : RdfGraph) (subj : RdfNode) (pred : String) : Option RdfNode :=
  ((g.find? (fun t => t.1 = subj && t.2.1 = pred))).map (·.2.2)

/-- `graph.objects(subj, pred)`. -/
def objectsOf (g : RdfGraph) (subj : RdfNode) (pred : String) : List RdfNode :=
  (g.filter (fun t => t.1 = subj && t.2.1 = pred)).map (·.2.2)

/-- The `cashmere:` namespace. -/
def cashmere (l : String) : String := "https://aimas.cs.pub.ro/ont/cashmere#" ++ l

/-- The `sh:` namespace. -/
def shacl (l : String) : String := "http://www.w3.org/ns/shacl#" ++ l

/-- `rdf:type`. -/
def rdfTypePred : String := "http://www.w3.org/1999/02/22-rdf-syntax-ns#type"

/-- Split a character list at every occurrence of `c` (the model of
Python `str.split`). -/
def splitOnChar (c : Char) : List Char → List (List Char)
  | [] => [[]]
  | x :: t =>
      if x = c then [] :: splitOnChar c t
      else
        match splitOnChar c t with
        | h :: r => (x :: h) :: r
        | [] => [[x]]

/-- `str(node).split("#")[-1]`. -/
def lastHashSegment (s : String) : String :=
  String.mk ((splitOnChar '#' s.toList).getLastD [])

/-- The fixed operator set of `ValueCondition.validate_operator`. -/
def allowedOperators : List String :=
  ["greaterThan", "lessThan", "greaterEqual", "lessEqual", "equals", "notEquals"]

/-- A loaded JSON scalar as a Python value; compound values as condition
values are outside the model (no claim exercises them). -/
def jsonToPyVal : Json → Option PyVal
  | .jint n => some (.pint n)
  | .jnum q => some (.pfloat q)
  | .jbool b => some (.pbool b)
  | .jstr s => some (.pstr s)
  | .jnull => some .pnone
  | _ => none

/-- Sequence a fallible parse over a list. -/
def mapExcept (f : α → Except String β) : List α → Except String (List β)
  | [] => .ok []
  | x :: t =>
      match f x with
      | .error e => .error e
      | .ok y => (mapExcept f t).map (fun ys => y :: ys)

namespace RepresentationService

/-- A `valueConditions` entry: `vc.get("operator", "equals")` /
`vc.get("value")` / `vc.get("datatype")`, then the pydantic validation
of the operator against the fixed set. -/
def parseValueCondition (vc : Json) : Except String ValueCondition :=
  match vc with
  | .jobj _ =>
      match (match vc.objGet "operator" with
             | none => Except.ok "equals"
             | some (.jstr s) => Except.ok s
             | some _ => Except.error "operator must be a string") with
      | .error e => .error e
      | .ok op =>
          if !allowedOperators.contains op then
            .error "Operator must be one of the allowed set"
          else
            match jsonToPyVal ((vc.objGet "value").getD .jnull) with
            | none => .error "unsupported value"
            | some v =>
                match vc.objGet "datatype" with
                | none => .ok { operator := op, value := v, datatype := none }
                | some .jnull => .ok { operator := op, value := v, datatype := none }
                | some (.jstr s) => .ok { operator := op, value := v, datatype := some s }
                | some _ => .error "datatype must be a string"
  | _ => .error "AttributeError"

/-- `_parse_structured_condition`: artifact and property via
`str(d.get(…, ""))`, value conditions from `d.get("valueConditions", [])`;
pydantic requires non-empty artifact and property. -/
def parseStructuredCondition (c : Json) : Except String StructuredCondition :=
  match c with
  | .jobj _ =>
      let artifact := Json.pyStr ((c.objGet "artifact").getD (.jstr ""))
      let property := Json.pyStr ((c.objGet "propertyAffordance").getD (.jstr ""))
      if artifact = "" || property = "" then
        .error "artifact and property_affordance must be non-empty"
      else
        match (match c.objGet "valueConditions" with
               | none => Except.ok ([] : List Json)
               | some (.jarr xs) => Except.ok xs
               | some _ => Except.error "valueConditions must be a list") with
        | .error e => .error e
        | .ok vcs =>
            (mapExcept parseValueCondition vcs).map (fun parsed =>
              { artifact := artifact, property_affordance := property,
                value_conditions := parsed })
  | _ => .error "AttributeError"

/-- A line of the extracted shapes text for one triple.  The claims use
the shapes text opaquely; the serialization is modelled as one line per
triple. -/
def tripleText (t : RdfNode × String × RdfNode) : String :=
  nodeStr t.1 ++ " " ++ t.2.1 ++ " " ++ nodeStr t.2.2

/-- `_extract_shacl_shapes`: the triples of each shape node and of its
`sh:property` sub-shapes, serialized. -/
def extractShaclShapes (g : RdfGraph) (shapeNodes : List RdfNode) : String :=
  String.intercalate "\n"
    ((shapeNodes.map (fun n =>
      (g.filter (fun t => t.1 = n)).map tripleText ++
        (objectsOf g n (shacl "property")).flatMap (fun p =>
          (g.filter (fun t => t.1 = p)).map tripleText))).flatten)

/-- The context parsed from the `recommendsContext` node, when present
and truthy: the structured description literal is loaded as JSON (a
decode failure is only logged), the conditions parsed (a pydantic
failure there escapes to the caller), and the SHACL shape text
extracted when `hasShaclCondition` links exist — an `rdflib`
serialization, hence a text `rdflib` re-parses (`some (some _)` as an
`Option RdfText`). -/
def parseContext (jsonLoads : String → Option Json) (g : RdfGraph)
    (contextNode : RdfNode) : Except String IntentContext :=
  let withDescription :=
    match valueOf g contextNode (cashmere "hasStructuredDescription") with
    | some contextNl =>
        if nodeFalsy contextNl then Except.ok ({} : IntentContext)
        else
          let base : IntentContext := { nl_description := some (nodeStr contextNl) }
          match jsonLoads (nodeStr contextNl) with
          | none => Except.ok base
          | some contextDict =>
              match contextDict with
              | .jobj _ =>
                  match (match contextDict.objGet "conditions" with
                         | none => Except.ok ([] : List Json)
                         | some (.jarr xs) => Except.ok xs
                         | some _ => Except.error "conditions must be a list") with
                  | .error e => .error e
                  | .ok cs =>
                      (mapExcept parseStructuredCondition cs).map (fun parsed =>
                        { base with structured_conditions := parsed })
              | _ => .error "AttributeError"
    | none => Except.ok ({} : IntentContext)
  match withDescription with
  | .error e => .error e
  | .ok ctx =>
      let shapeNodes := objectsOf g contextNode (cashmere "hasShaclCondition")
      if shapeNodes.isEmpty then .ok ctx
      else .ok { ctx with shacl_shapes := some (some (extractShaclShapes g shapeNodes)) }

/-- `RepresentationService.parse_rdf_signifier` over the parsed graph:
the required-predicate checks in code order, the intent JSON decode,
the optional context, and the pydantic validation of the assembled
signifier.  Every failure raises `ValueError` (*InvalidRDF*). -/
def parseRdfSignifier (jsonLoads : String → Option Json) (g : RdfGraph) :
    Except String Signifier :=
  match subjectsOf g rdfTypePred (.uri (cashmere "Signifier")) with
  | [] => .error "No Signifier found in RDF data"
  | signifierNode :: _ =>
      let signifierId := lastHashSegment (nodeStr signifierNode)
      match valueOf g signifierNode (cashmere "signifies") with
      | none => .error "Missing cashmere:signifies property"
      | some affordanceUri =>
          if nodeFalsy affordanceUri then .error "Missing cashmere:signifies property"
          else
            match valueOf g signifierNode (cashmere "hasIntentionDescription") with
            | none => .error "Missing cashmere:hasIntentionDescription"
            | some intentNode =>
                if nodeFalsy intentNode then .error "Missing cashmere:hasIntentionDescription"
                else
                  match valueOf g intentNode (cashmere "hasStructuredDescription") with
                  | none => .error "Missing intent description"
                  | some intentNl =>
                      if nodeFalsy intentNl then .error "Missing intent description"
                      else
                        match jsonLoads (nodeStr intentNl) with
                        | none => .error "JSONDecodeError"
                        | some intentDict =>
                            match intentDict with
                            | .jobj _ =>
                                match (match intentDict.objGet "intent" with
                                       | none => Except.ok ""
                                       | some (.jstr s) => Except.ok s
                                       | some _ => Except.error "nl_text must be a string") with
                                | .error e => .error e
                                | .ok nlText =>
                                    if nlText = "" then .error "nl_text must be non-empty"
                                    else
                                      let contextResult :=
                                        match valueOf g signifierNode (cashmere "recommendsContext") with
                                        | some contextNode =>
                                            if nodeFalsy contextNode then
                                              Except.ok ({} : IntentContext)
                                            else parseContext jsonLoads g contextNode
                                        | none => Except.ok ({} : IntentContext)
                                      match contextResult with
                                      | .error e => .error e
                                      | .ok context =>
                                          if signifierId = "" then
                                            .error "signifier_id must be non-empty"
                                          else
                                            .ok { signifier_id := signifierId,
                                                  version := 1,
                                                  status := .active,
                                                  intent := { nl_text := nlText,
                                                              structured := some intentDict },
                                                  context := context,
                                                  affordance_uri := nodeStr affordanceUri,
                                                  provenance := { created_by := "system",
                                                                  source := "rdf_import" } }
                            | _ => .error "AttributeError"

end RepresentationService

/-! ## Theorems -/

/-! ### C5 — SSE missing-value policies -/

/-- Under a policy other than `fail`, conditions whose property is
absent from the context record no violation. -/
theorem evalLoop_all_missing_no_violation (policy : String) (co : Bool)
    (ctx : ContextFeatures) (conds : List StructuredCondition)
    (hp : policy ≠ "fail")
    (hm : ∀ c ∈ conds,
      propLookup (ctx.artifactData c.artifact) c.property_affordance = none) :
    (SSE.evalLoop policy co ctx conds).1 = [] := by
  induction conds with
  | nil => simp [SSE.evalLoop]
  | cons c rest ih =>
      have hc := hm c (by simp)
      have hrest : ∀ c ∈ rest,
          propLookup (ctx.artifactData c.artifact) c.property_affordance = none :=
        fun x hx => hm x (by simp [hx])
      simp [SSE.evalLoop, hc, hp, ih hrest]

/-- Under policy `fail`, a condition whose property is absent records a
violation. -/
theorem evalLoop_missing_fail_violation (co : Bool) (ctx : ContextFeatures)
    (c : StructuredCondition) (rest : List StructuredCondition)
    (hc : propLookup (ctx.artifactData c.artifact) c.property_affordance = none) :
    (SSE.evalLoop "fail" co ctx (c :: rest)).1 =
      SSE.missingViolation c :: (SSE.evalLoop "fail" co ctx rest).1 := by
  simp [SSE.evalLoop, hc]

/-- C5: a signifier all of whose structured conditions refer to
(artifact, property) pairs absent from the context yields
`sse_pass = false` under policy `fail` and `sse_pass = true` under the
policies `ignore` and `pass`; a signifier with no structured conditions
yields `sse_pass = true` under every policy. -/
theorem C5_sse_missing_value_policies (co : Bool) (ctx : ContextFeatures)
    (conds : List StructuredCondition) :
    (conds ≠ [] →
      (∀ c ∈ conds,
        propLookup (ctx.artifactData c.artifact) c.property_affordance = none) →
      (SSE.evaluate "fail" co conds ctx).sse_pass = false ∧
      (SSE.evaluate "ignore" co conds ctx).sse_pass = true ∧
      (SSE.evaluate "pass" co conds ctx).sse_pass = true) ∧
    (conds = [] → ∀ policy co' ctx',
      (SSE.evaluate policy co' conds ctx').sse_pass = true) := by
  constructor
  · intro hne hm
    match conds, hne with
    | c :: rest, _ =>
        refine ⟨?_, ?_, ?_⟩
        · have h1 := evalLoop_missing_fail_violation co ctx c rest (hm c (by simp))
          simp [SSE.evaluate, h1]
        · have h2 := evalLoop_all_missing_no_violation "ignore" co ctx (c :: rest)
            (by decide) hm
          simp [SSE.evaluate, h2]
        · have h3 := evalLoop_all_missing_no_violation "pass" co ctx (c :: rest)
            (by decide) hm
          simp [SSE.evaluate, h3]
  · rintro rfl policy co' ctx'
    simp [SSE.evaluate]

/-- Witness for C5 at a concrete condition set and empty context. -/
theorem C5_witness :
    (SSE.evaluate "fail" true
        [{ artifact := "a", property_affordance := "p",
           value_conditions := [{ operator := "greaterThan", value := .pint 5 }] }]
        []).sse_pass = false ∧
    (SSE.evaluate "ignore" true
        [{ artifact := "a", property_affordance := "p",
           value_conditions := [{ operator := "greaterThan", value := .pint 5 }] }]
        []).sse_pass = true ∧
    (SSE.evaluate "pass" true
        [{ artifact := "a", property_affordance := "p",
           value_conditions := [{ operator := "greaterThan", value := .pint 5 }] }]
        []).sse_pass = true :=
  (C5_sse_missing_value_policies true []
      [{ artifact := "a", property_affordance := "p",
         value_conditions := [{ operator := "greaterThan", value := .pint 5 }] }]).1
    (by simp) (by intro c hc; simp at hc; simp [hc, ContextFeatures.artifactData, propLookup])

/-! ### C9 — behaviour when type coercion fails -/

/-- C9 counterexample: with coercion enabled, expected value `5` and
actual value `"abc"` (whose float parse fails), the operator
`notEquals` evaluates to *passed*, not failed — refuting the claim that
a failed coercion makes the condition fail for every operator. -/
theorem C9_counterexample :
    pyFloatOfString "abc" = none ∧
    SSE.evaluateCondition true
      { operator := "notEquals", value := .pint 5 } (.pstr "abc") = true := by
  constructor
  · rfl
  · rfl

/-- C9 amended: with coercion enabled, a numeric expected value and a
string actual value whose float parse fails, no error is raised and the
condition evaluates to failed for the four ordered operators and for
`equals` (cross-type equality is `False`), but to *passed* for
`notEquals` (cross-type inequality is `True`). -/
theorem C9_coercion_failure (expected : PyVal) (dt : Option String) (s : String)
    (hnum : expected.pyIsNumeric = true) (hparse : pyFloatOfString s = none) :
    (∀ op ∈ ["greaterThan", "lessThan", "greaterEqual", "lessEqual", "equals"],
      SSE.evaluateCondition true
        { operator := op, value := expected, datatype := dt } (.pstr s) = false) ∧
    SSE.evaluateCondition true
      { operator := "notEquals", value := expected, datatype := dt } (.pstr s) = true := by
  have hcmp : pyCompare (.pstr s) expected = none := by
    cases expected <;> simp_all [pyCompare, PyVal.pyIsNumeric, PyVal.toRat]
  have heq : pyEq (.pstr s) expected = false := by
    cases expected <;> simp_all [pyEq, PyVal.pyIsNumeric, PyVal.toRat]
  constructor
  · intro op hop
    have hops : op = "greaterThan" ∨ op = "lessThan" ∨ op = "greaterEqual" ∨
        op = "lessEqual" ∨ op = "equals" := by simpa using hop
    rcases hops with h | h | h | h | h <;>
      · subst h
        simp [SSE.evaluateCondition, hnum, PyVal.pyIsNumeric, PyVal.pyIsStr,
          pyFloatOfVal, hparse, hcmp, heq]
  · simp [SSE.evaluateCondition, hnum, PyVal.pyIsNumeric, PyVal.pyIsStr,
      pyFloatOfVal, hparse, hcmp, heq]

/-- Witness for C9 at expected `5`, actual `"abc"`. -/
theorem C9_witness :
    SSE.evaluateCondition true
      { operator := "greaterThan", value := .pint 5, datatype := none }
      (.pstr "abc") = false ∧
    SSE.evaluateCondition true
      { operator := "notEquals", value := .pint 5, datatype := none }
      (.pstr "abc") = true :=
  ⟨(C9_coercion_failure (.pint 5) none "abc" (by decide) (by rfl)).1
      "greaterThan" (by simp),
   (C9_coercion_failure (.pint 5) none "abc" (by decide) (by rfl)).2⟩

/-! ### Properties of the stable descending sort -/

theorem insertDescBy_perm (key : α → ℚ) (a : α) (l : List α) :
    (insertDescBy key a l).Perm (a :: l) := by
  induction l with
  | nil => simp [insertDescBy]
  | cons b t ih =>
      by_cases h : key a < key b
      · simpa [insertDescBy, h] using (ih.cons b).trans (List.Perm.swap a b t)
      · simp [insertDescBy, h]

theorem sortDescBy_perm (key : α → ℚ) (l : List α) : (sortDescBy key l).Perm l := by
  induction l with
  | nil => simp [sortDescBy]
  | cons a t ih =>
      exact ((insertDescBy_perm key a (sortDescBy key t)).trans (ih.cons a))

theorem mem_sortDescBy {key : α → ℚ} {l : List α} {x : α} :
    x ∈ sortDescBy key l ↔ x ∈ l :=
  (sortDescBy_perm key l).mem_iff

theorem insertDescBy_sorted (key : α → ℚ) (a : α) (l : List α)
    (h : l.Pairwise (fun x y => key y ≤ key x)) :
    (insertDescBy key a l).Pairwise (fun x y => key y ≤ key x) := by
  induction l with
  | nil => simp [insertDescBy]
  | cons b t ih =>
      rcases (List.pairwise_cons).1 h with ⟨hb, ht⟩
      by_cases hab : key a < key b
      · rw [insertDescBy, if_pos hab]
        refine List.pairwise_cons.2 ⟨?_, ih ht⟩
        intro x hx
        rcases List.mem_cons.1 (((insertDescBy_perm key a t).mem_iff).1 hx) with hx | hx
        · subst hx; exact le_of_lt hab
        · exact hb x hx
      · rw [insertDescBy, if_neg hab]
        refine List.pairwise_cons.2 ⟨?_, h⟩
        intro x hx
        rcases List.mem_cons.1 hx with hx | hx
        · subst hx; exact le_of_not_lt hab
        · exact le_trans (hb x hx) (le_of_not_lt hab)

theorem sortDescBy_sorted (key : α → ℚ) (l : List α) :
    (sortDescBy key l).Pairwise (fun x y => key y ≤ key x) := by
  induction l with
  | nil => simp [sortDescBy]
  | cons a t ih => exact insertDescBy_sorted key a (sortDescBy key t) ih

/-- Stability, first half: inserting an element of key `q` prepends it
to the `q`-tie class, because it only moves past strictly greater
keys. -/
theorem insertDescBy_filter_eq (key : α → ℚ) (a : α) (l : List α) (q : ℚ)
    (hq : key a = q) :
    (insertDescBy key a l).filter (fun x => key x = q) =
      a :: l.filter (fun x => key x = q) := by
  induction l with
  | nil => simp [insertDescBy, List.filter, hq]
  | cons b t ih =>
      by_cases hab : key a < key b
      · have hbq : ¬ (key b = q) := by
          intro hb; rw [hq, ← hb] at hab; exact lt_irrefl _ hab
        rw [insertDescBy, if_pos hab]
        simp [List.filter_cons, hbq, ih]
      · rw [insertDescBy, if_neg hab]
        simp [List.filter_cons, hq]

/-- Stability, second half: inserting an element outside the `q`-tie
class leaves the class unchanged. -/
theorem insertDescBy_filter_ne (key : α → ℚ) (a : α) (l : List α) (q : ℚ)
    (hq : ¬ (key a = q)) :
    (insertDescBy key a l).filter (fun x => key x = q) =
      l.filter (fun x => key x = q) := by
  induction l with
  | nil => simp [insertDescBy, List.filter, hq]
  | cons b t ih =>
      by_cases hab : key a < key b
      · rw [insertDescBy, if_pos hab]
        simp [List.filter_cons, ih]
      · rw [insertDescBy, if_neg hab]
        simp [List.filter_cons, hq]

/-- Stability of `sortDescBy`: every tie class keeps its input order. -/
theorem sortDescBy_filter (key : α → ℚ) (l : List α) (q : ℚ) :
    (sortDescBy key l).filter (fun x => key x = q) =
      l.filter (fun x => key x = q) := by
  induction l with
  | nil => simp [sortDescBy]
  | cons a t ih =>
      by_cases hq : key a = q
      · rw [sortDescBy, insertDescBy_filter_eq key a _ q hq]
        simp [List.filter_cons, hq, ih]
      · rw [sortDescBy, insertDescBy_filter_ne key a _ q hq]
        simp [List.filter_cons, hq, ih]

/-! ### C10 — IM v0 returns only strictly positive similarities -/

/-- C10: on a non-empty query, every result of IM v0 has similarity
strictly greater than 0 — a signifier sharing no qualifying token with
the query is omitted rather than reported with similarity 0 — and a
query matching no signifier yields an empty result list. -/
theorem C10_match_positive_only (q : String) (sigs : List MatchSignifier)
    (k : Nat) (cs : Bool) (res : List MatchResult)
    (hq : q ≠ "") (h : stringMatch q sigs k cs = .ok res) :
    (∀ r ∈ res, 0 < r.similarity) ∧
    ((∀ sig ∈ sigs, computeSimilarity (tokenize q cs) sig cs = 0) → res = []) := by
  unfold stringMatch at h
  rw [if_neg hq] at h
  by_cases hemp : sigs.isEmpty
  · rw [if_pos hemp] at h
    simp only [Except.ok.injEq] at h
    subst h
    exact ⟨by simp, fun _ => rfl⟩
  · rw [if_neg hemp] at h
    simp only [Except.ok.injEq] at h
    subst h
    constructor
    · intro r hr
      have hmem := mem_sortDescBy.1 (List.mem_of_mem_take hr)
      obtain ⟨sig, hsig, hf⟩ := List.mem_filterMap.1 hmem
      by_cases hpos : computeSimilarity (tokenize q cs) sig cs > 0
      · rw [if_pos hpos] at hf
        simp only [Option.some.injEq] at hf
        subst hf
        exact hpos
      · rw [if_neg hpos] at hf
        exact absurd hf (by simp)
    · intro hzero
      have hnil : sigs.filterMap (fun sig =>
          let similarity := computeSimilarity (tokenize q cs) sig cs
          if similarity > 0 then
            some { signifier_id := sig.signifier_id,
                   similarity := similarity,
                   matched_tokens := getMatchedTokens (tokenize q cs) sig cs }
          else (none : Option MatchResult)) = [] := by
        apply List.filterMap_eq_nil_iff.2
        intro sig hsig
        have h0 := hzero sig hsig
        simp only [h0]
        norm_num
      rw [hnil]
      simp [sortDescBy]

/-- Witness for C10 at a matching and a non-matching concrete input. -/
theorem C10_witness :
    (∀ r ∈ [({ signifier_id := "s1", similarity := 1,
               matched_tokens := ["raise", "blinds"] } : MatchResult)],
      0 < r.similarity) ∧
    ((∀ sig ∈ [({ signifier_id := "s1", nl_text := "raise the blinds" } : MatchSignifier)],
        computeSimilarity (tokenize "raise blinds" false) sig false = 0) →
      [({ signifier_id := "s1", similarity := 1,
          matched_tokens := ["raise", "blinds"] } : MatchResult)] = []) :=
  C10_match_positive_only "raise blinds"
    [{ signifier_id := "s1", nl_text := "raise the blinds" }] 10 false
    [{ signifier_id := "s1", similarity := 1, matched_tokens := ["raise", "blinds"] }]
    (by decide)
    (by
      have hsim : computeSimilarity (tokenize "raise blinds" false)
          { signifier_id := "s1", nl_text := "raise the blinds" } false = 1 := by
        have h2 : computeSimilarity (tokenize "raise blinds" false)
            { signifier_id := "s1", nl_text := "raise the blinds" } false =
            ((2 : ℕ) : ℚ) / ((2 : ℕ) : ℚ) := rfl
        rw [h2]; norm_num
      unfold stringMatch
      rw [if_neg (by decide), if_neg (by decide)]
      simp only [List.filterMap_cons, List.filterMap_nil]
      rw [hsim]
      rw [if_pos (by norm_num : (1 : ℚ) > 0)]
      rfl)

/-! ### C6 — IM v0 similarity counts duplicates -/

/-- The claim's formula: distinct query tokens appearing in the
signifier token set, over the query token count
(`|set(t for t in Q if t in S)| / |Q|`). -/
def distinctMatchSimilarity (queryTokens : List String) (sig : MatchSignifier)
    (cs : Bool) : ℚ :=
  ((queryTokens.dedup.filter (fun t => (signifierTokens sig cs).contains t)).length : ℚ) /
    (queryTokens.length : ℚ)

/-- C6 counterexample: for the query `"light light"` against a
signifier with `nl_text = "light"`, the code returns similarity 1 (each
occurrence of the duplicated token is counted), while the claim's
distinct-token formula gives 1/2. -/
theorem C6_counterexample :
    computeSimilarity (tokenize "light light" false)
        { signifier_id := "s1", nl_text := "light" } false = 1 ∧
    distinctMatchSimilarity (tokenize "light light" false)
        { signifier_id := "s1", nl_text := "light" } false = 1/2 ∧
    (1 : ℚ) ≠ 1/2 := by
  refine ⟨?_, ?_, by norm_num⟩
  · have h : computeSimilarity (tokenize "light light" false)
        { signifier_id := "s1", nl_text := "light" } false =
        ((2 : ℕ) : ℚ) / ((2 : ℕ) : ℚ) := rfl
    rw [h]; norm_num
  · have h : distinctMatchSimilarity (tokenize "light light" false)
        { signifier_id := "s1", nl_text := "light" } false =
        ((1 : ℕ) : ℚ) / ((2 : ℕ) : ℚ) := rfl
    rw [h]; norm_num

/-- C6 amended: IM v0 similarity is the number of query token
*occurrences* (with multiplicity) contained in the signifier token set,
divided by the query token count; on a query with a duplicated matching
token each occurrence counts. -/
theorem C6_similarity_formula (queryTokens : List String) (sig : MatchSignifier)
    (cs : Bool) :
    computeSimilarity queryTokens sig cs =
      ((queryTokens.countP (fun t => decide (t ∈ signifierTokens sig cs))) : ℚ) /
        (queryTokens.length : ℚ) := by
  have hfun : (fun t => (signifierTokens sig cs).contains t) =
      (fun t => decide (t ∈ signifierTokens sig cs)) :=
    funext fun t => List.elem_eq_mem t _
  unfold computeSimilarity
  by_cases hS : (signifierTokens sig cs).isEmpty
  · rw [if_pos hS]
    have hSnil : signifierTokens sig cs = [] := List.isEmpty_iff.1 hS
    have : queryTokens.countP (fun t => decide (t ∈ signifierTokens sig cs)) = 0 := by
      simp [List.countP_eq_zero, hSnil]
    rw [this]
    simp
  · rw [if_neg hS]
    by_cases hQ : queryTokens.isEmpty
    · have hQnil : queryTokens = [] := List.isEmpty_iff.1 hQ
      subst hQnil
      simp
    · rw [if_neg hQ]
      rw [List.countP_eq_length_filter, hfun]

/-! ### C2 — ranker gates and weighted scoring -/

/-- The claim's gate-failure condition: the SHACL gate is enabled and
the candidate has shapes but does not conform, or the SSE gate is
enabled and the candidate carries `sse_pass = false`. -/
def gateFails (cfg : RankerConfig) (c : RankCandidate) : Prop :=
  (cfg.enable_shacl_gate = true ∧ c.shacl_has_shapes = true ∧ c.shacl_conforms = false) ∨
  (cfg.enable_sse_gate = true ∧ c.sse_pass = some false)

instance (cfg : RankerConfig) (c : RankCandidate) : Decidable (gateFails cfg c) := by
  unfold gateFails; infer_instance

/-- The claim's scoring formula over the non-gate signals:
`(Σ wᵢ·normalize(vᵢ)) / (Σ wᵢ)`. -/
def nonGateScoreFormula (cfg : RankerConfig) (c : RankCandidate) : ℚ :=
  let nonGate := (Ranker.signalsOf cfg c).filter (fun s => !s.is_gate)
  ((nonGate.map (fun s => s.weight * Ranker.normalizeValue s.value)).sum) /
    ((nonGate.map (·.weight)).sum)

/-- `passed_gates` is the negation of the claim's gate-failure
condition. -/
theorem passedGates_iff (cfg : RankerConfig) (c : RankCandidate) :
    Ranker.passedGates cfg c = true ↔ ¬ gateFails cfg c := by
  unfold Ranker.passedGates gateFails
  cases hs : c.shacl_has_shapes <;> cases hc : c.shacl_conforms <;>
    cases hg : cfg.enable_shacl_gate <;> cases he : cfg.enable_sse_gate <;>
      rcases hsse : c.sse_pass with _ | b <;> simp

/-- The code's guarded weighted average equals the claim's quotient
(in ℚ, a quotient with zero denominator is 0, matching the code's
guard). -/
theorem calculateWeightedScore_eq (sigs : List RankingSignal) :
    Ranker.calculateWeightedScore sigs =
      ((sigs.filter (fun s => !s.is_gate)).map
          (fun s => s.weight * Ranker.normalizeValue s.value)).sum /
        ((sigs.filter (fun s => !s.is_gate)).map (·.weight)).sum := by
  have hcomm : ((sigs.filter (fun s => !s.is_gate)).map
      (fun s => Ranker.normalizeValue s.value * s.weight)).sum =
      ((sigs.filter (fun s => !s.is_gate)).map
        (fun s => s.weight * Ranker.normalizeValue s.value)).sum := by
    congr 1
    apply List.map_congr_left
    intro s _
    exact mul_comm _ _
  unfold Ranker.calculateWeightedScore
  by_cases h : (((sigs.filter (fun s => !s.is_gate)).map (·.weight)).sum) = 0
  · rw [if_pos h, h, div_zero]
  · rw [if_neg h, hcomm]

/-- With non-negative weights and normalized values in `[0, 1]`, the
weighted average is at most 1. -/
theorem calculateWeightedScore_le_one (sigs : List RankingSignal)
    (h : ∀ s ∈ sigs, 0 ≤ s.weight ∧ 0 ≤ Ranker.normalizeValue s.value ∧
      Ranker.normalizeValue s.value ≤ 1) :
    Ranker.calculateWeightedScore sigs ≤ 1 := by
  unfold Ranker.calculateWeightedScore
  have hmem : ∀ s ∈ sigs.filter (fun s => !s.is_gate),
      0 ≤ s.weight ∧ 0 ≤ Ranker.normalizeValue s.value ∧
        Ranker.normalizeValue s.value ≤ 1 :=
    fun s hs => h s (List.mem_of_mem_filter hs)
  by_cases h0 : (((sigs.filter (fun s => !s.is_gate)).map (·.weight)).sum) = 0
  · rw [if_pos h0]
    norm_num
  · rw [if_neg h0]
    have hwnn : 0 ≤ (((sigs.filter (fun s => !s.is_gate)).map (·.weight)).sum) := by
      apply List.sum_nonneg
      intro x hx
      obtain ⟨s, hs, rfl⟩ := List.mem_map.1 hx
      exact (hmem s hs).1
    have hle : (((sigs.filter (fun s => !s.is_gate)).map
        (fun s => Ranker.normalizeValue s.value * s.weight)).sum) ≤
        (((sigs.filter (fun s => !s.is_gate)).map (·.weight)).sum) := by
      apply List.sum_le_sum
      intro s hs
      calc Ranker.normalizeValue s.value * s.weight
          ≤ 1 * s.weight :=
            mul_le_mul_of_nonneg_right (hmem s hs).2.2 (hmem s hs).1
        _ = s.weight := one_mul _
    have hpos : 0 < (((sigs.filter (fun s => !s.is_gate)).map (·.weight)).sum) :=
      lt_of_le_of_ne hwnn (Ne.symm h0)
    exact (div_le_one hpos).2 hle

/-- C2: a candidate failing any enabled gate gets `final_score = 0` and
`passed_gates = false`; a candidate passing all enabled gates gets
`passed_gates = true` and
`final_score = min(1, Σ wᵢ·normalize(vᵢ)/Σ wᵢ + boost·constraint_count)`
over the non-gate signals (with the candidate's similarity in `[0, 1]`
and non-negative weights, as the signal contract specifies). -/
theorem C2_ranker_gates_and_score (cfg : RankerConfig) (c : RankCandidate)
    (h0 : 0 ≤ c.intent_similarity) (h1 : c.intent_similarity ≤ 1)
    (hw1 : 0 ≤ cfg.weight_intent) (hw2 : 0 ≤ cfg.weight_shacl)
    (hw3 : 0 ≤ cfg.weight_sse) :
    (gateFails cfg c →
      (Ranker.rankOne cfg c).final_score = 0 ∧
      (Ranker.rankOne cfg c).passed_gates = false) ∧
    (¬ gateFails cfg c →
      (Ranker.rankOne cfg c).passed_gates = true ∧
      (Ranker.rankOne cfg c).final_score =
        min 1 (nonGateScoreFormula cfg c +
          (c.constraint_count : ℚ) * cfg.specificity_boost)) := by
  have hsignals : ∀ s ∈ Ranker.signalsOf cfg c,
      0 ≤ s.weight ∧ 0 ≤ Ranker.normalizeValue s.value ∧
        Ranker.normalizeValue s.value ≤ 1 := by
    intro s hs
    unfold Ranker.signalsOf at hs
    simp only [List.mem_append, List.mem_singleton] at hs
    rcases hs with (hs | hs) | hs
    · subst hs
      exact ⟨hw1, h0, h1⟩
    · rcases hhs : c.shacl_has_shapes with _ | _ <;> rw [hhs] at hs <;> simp at hs
      subst hs
      refine ⟨hw2, ?_, ?_⟩ <;> rcases c.shacl_conforms <;>
        simp [Ranker.normalizeValue]
    · rcases hsse : c.sse_pass with _ | b <;> rw [hsse] at hs <;> simp at hs
      subst hs
      refine ⟨hw3, ?_, ?_⟩ <;> rcases b <;> simp [Ranker.normalizeValue]
  have hscore : (Ranker.rankOne cfg c).final_score =
      (if Ranker.passedGates cfg c then
        (if c.constraint_count > 0 then
          min 1 (Ranker.calculateWeightedScore (Ranker.signalsOf cfg c) +
            (c.constraint_count : ℚ) * cfg.specificity_boost)
        else Ranker.calculateWeightedScore (Ranker.signalsOf cfg c))
      else 0) := rfl
  have hpassed : (Ranker.rankOne cfg c).passed_gates = Ranker.passedGates cfg c := rfl
  constructor
  · intro hfail
    have hpg : Ranker.passedGates cfg c = false := by
      cases h : Ranker.passedGates cfg c
      · rfl
      · exact absurd hfail ((passedGates_iff cfg c).1 h)
    refine ⟨?_, by rw [hpassed, hpg]⟩
    rw [hscore, if_neg (by rw [hpg]; exact Bool.false_ne_true)]
  · intro hpass
    have hpg : Ranker.passedGates cfg c = true := (passedGates_iff cfg c).2 hpass
    refine ⟨by rw [hpassed, hpg], ?_⟩
    rw [hscore, if_pos hpg]
    rw [calculateWeightedScore_eq]
    by_cases hcc : c.constraint_count > 0
    · rw [if_pos hcc]
      rfl
    · rw [if_neg hcc]
      have hcc0 : c.constraint_count = 0 := Nat.eq_zero_of_not_pos hcc
      have hle := calculateWeightedScore_le_one (Ranker.signalsOf cfg c) hsignals
      rw [calculateWeightedScore_eq] at hle
      rw [hcc0]
      simp only [Nat.cast_zero, zero_mul, add_zero]
      exact (min_eq_right hle).symm

/-- A shape-failing candidate (for the C2 witness). -/
def gateFailCandidate : RankCandidate :=
  { signifier_id := "a", intent_similarity := 1,
    shacl_has_shapes := true, shacl_conforms := false }

/-- A gate-passing candidate (for the C2 witness). -/
def gatePassCandidate : RankCandidate :=
  { signifier_id := "b", intent_similarity := 1 }

/-- Witness for C2: a shape-failing candidate under the default gates is
forced to zero, and a clean candidate gets the weighted formula. -/
theorem C2_witness :
    ((Ranker.rankOne {} gateFailCandidate).final_score = 0 ∧
      (Ranker.rankOne {} gateFailCandidate).passed_gates = false) ∧
    ((Ranker.rankOne {} gatePassCandidate).passed_gates = true ∧
      (Ranker.rankOne {} gatePassCandidate).final_score =
        min 1 (nonGateScoreFormula {} gatePassCandidate +
          ((gatePassCandidate.constraint_count : ℕ) : ℚ) * (1/100))) :=
  ⟨(C2_ranker_gates_and_score {} gateFailCandidate
      (by norm_num [gateFailCandidate]) (by norm_num [gateFailCandidate])
      (by norm_num) (by norm_num) (by norm_num)).1
      (Or.inl ⟨rfl, rfl, rfl⟩),
   (C2_ranker_gates_and_score {} gatePassCandidate
      (by norm_num [gatePassCandidate]) (by norm_num [gatePassCandidate])
      (by norm_num) (by norm_num) (by norm_num)).2
      (by intro h; rcases h with ⟨_, h, _⟩ | ⟨h, _⟩ <;> simp [gatePassCandidate] at h)⟩

/-! ### C8 — result ordering -/

/-- First candidate of the C8 counterexample (larger id first in input). -/
def cbCandidate : RankCandidate := { signifier_id := "b", intent_similarity := 1 }

/-- Second candidate of the C8 counterexample. -/
def caCandidate : RankCandidate := { signifier_id := "a", intent_similarity := 1 }

/-- C8 counterexample: two candidates with identical signals (hence
equal `final_score`) presented in the order `["b", "a"]` are returned
in that same order — ties keep the input order, they are *not* sorted
by `signifier_id` ascending. -/
theorem C8_counterexample :
    Ranker.rank {} [cbCandidate, caCandidate] =
      [Ranker.rankOne {} cbCandidate, Ranker.rankOne {} caCandidate] ∧
    (Ranker.rankOne {} cbCandidate).final_score =
      (Ranker.rankOne {} caCandidate).final_score ∧
    (Ranker.rankOne {} cbCandidate).signifier_id = "b" ∧
    (Ranker.rankOne {} caCandidate).signifier_id = "a" := by
  have heq : (Ranker.rankOne {} cbCandidate).final_score =
      (Ranker.rankOne {} caCandidate).final_score := rfl
  have hlt : ¬ ((Ranker.rankOne {} cbCandidate).final_score <
      (Ranker.rankOne {} caCandidate).final_score) := by
    rw [heq]
    exact lt_irrefl _
  refine ⟨?_, heq, rfl, rfl⟩
  unfold Ranker.rank
  simp only [List.map_cons, List.map_nil, sortDescBy, insertDescBy]
  rw [if_neg hlt]

/-- C8 amended: the ranked list is sorted by `final_score` descending
and is a permutation of the per-candidate results, and every
equal-score tie class appears in input order (Python's sort is stable);
there is no `signifier_id` tie-break. -/
theorem C8_rank_sorted_stable (cfg : RankerConfig) (cands : List RankCandidate) :
    (Ranker.rank cfg cands).Pairwise
      (fun a b => b.final_score ≤ a.final_score) ∧
    (Ranker.rank cfg cands).Perm (cands.map (Ranker.rankOne cfg)) ∧
    (∀ q : ℚ, (Ranker.rank cfg cands).filter (fun r => r.final_score = q) =
      (cands.map (Ranker.rankOne cfg)).filter (fun r => r.final_score = q)) :=
  ⟨sortDescBy_sorted _ _, sortDescBy_perm _ _, fun q => sortDescBy_filter _ _ q⟩

/-! ### C3 — the IM stage does not filter by status -/

/-- Rewrite every stored document's status. -/
def mapStatus (f : SignifierStatus → SignifierStatus) (st : StoreState) : StoreState :=
  { st with docs := st.docs.map (fun e => (e.1, { e.2 with status := f e.2.status })) }

theorem listSignifiers_mapStatus (f : SignifierStatus → SignifierStatus)
    (st : StoreState) (l o : Nat) :
    SignifierRegistry.listSignifiers (mapStatus f st) none none l o =
      (SignifierRegistry.listSignifiers st none none l o).map
        (fun s => { s with status := f s.status }) := by
  unfold SignifierRegistry.listSignifiers mapStatus
  simp only [List.map_map, ← List.map_drop, ← List.map_take]
  rfl

theorem getJsonDocument_mapStatus (f : SignifierStatus → SignifierStatus)
    (st : StoreState) (signifierId : String) :
    MemoryStore.getJsonDocument (mapStatus f st) signifierId =
      (MemoryStore.getJsonDocument st signifierId).map
        (fun s => { s with status := f s.status }) := by
  unfold MemoryStore.getJsonDocument mapStatus
  rw [List.find?_map]
  simp only [Option.map_map]
  rfl

/-- If two option-producing functions agree after projection, the
projected `filterMap`s agree. -/
theorem filterMap_map_congr {α β γ : Type _} (F G : α → Option β) (p : β → γ)
    (h : ∀ m, (F m).map p = (G m).map p) (l : List α) :
    (l.filterMap F).map p = (l.filterMap G).map p := by
  induction l with
  | nil => rfl
  | cons m t ih =>
      have hm := h m
      simp only [List.filterMap_cons]
      cases hF : F m with
      | none =>
          rw [hF] at hm
          cases hG : G m with
          | none => exact ih
          | some b => rw [hG] at hm; simp at hm
      | some b =>
          rw [hF] at hm
          cases hG : G m with
          | none => rw [hG] at hm; simp at hm
          | some b' =>
              rw [hG] at hm
              simp at hm
              simp only [List.map_cons, hm, ih]

/-- C3 amended: the IM stage enumerates the registry with *no* status
filter (`list_signifiers(limit=10000)`), so the candidate ids and
similarities are unchanged under any rewriting of the stored statuses —
deprecated signifiers are scored exactly like active ones. -/
theorem C3_im_ignores_status (f : SignifierStatus → SignifierStatus)
    (st : StoreState) (q : String) (k : Nat) :
    (executeIntentMatching (mapStatus f st) q k).map
        (fun cs => cs.map (fun c => (c.signifier_id, c.intent_similarity))) =
      (executeIntentMatching st q k).map
        (fun cs => cs.map (fun c => (c.signifier_id, c.intent_similarity))) := by
  unfold executeIntentMatching
  dsimp only
  rw [listSignifiers_mapStatus]
  have hdicts : ((SignifierRegistry.listSignifiers st none none 10000 0).map
      (fun s => { s with status := f s.status })).map modelDump =
      (SignifierRegistry.listSignifiers st none none 10000 0).map modelDump := by
    rw [List.map_map]
    rfl
  rw [hdicts]
  cases h : stringMatch q ((SignifierRegistry.listSignifiers st none none 10000 0).map
      modelDump) k false with
  | error e => rfl
  | ok ms =>
      simp only [Except.map]
      congr 1
      apply filterMap_map_congr
      intro m
      rw [getJsonDocument_mapStatus]
      simp only [Option.map_map]
      rfl

/-- A signifier whose intent text matches the query of the C3
counterexample. -/
def rbSignifier : Signifier :=
  { signifier_id := "s1",
    intent := { nl_text := "raise the blinds" },
    context := {},
    affordance_uri := "http://example.org/aff#raise",
    provenance := { created_by := "tester" } }

/-- Create the signifier, then deprecate it. -/
def deprecatedStoreOps : List RegistryOp :=
  [.create rbSignifier none, .updateStatus "s1" .deprecated]

/-- C3 counterexample: after creating a matching signifier and setting
its status to deprecated, the IM stage still returns it as a candidate
(with similarity 1) and its status is `deprecated` — refuting the claim
that only active signifiers are scored. -/
theorem C3_counterexample :
    (executeIntentMatching (registryRun emptyStore deprecatedStoreOps)
        "raise blinds" 10).map
      (fun cs => cs.map (fun c => (c.signifier_id, c.intent_similarity,
        c.signifier.status))) =
      .ok [("s1", (1 : ℚ), SignifierStatus.deprecated)] := by
  have hsim : computeSimilarity (tokenize "raise blinds" false)
      (modelDump { rbSignifier with status := .deprecated }) false = 1 := by
    have h2 : computeSimilarity (tokenize "raise blinds" false)
        (modelDump { rbSignifier with status := .deprecated }) false =
        ((2 : ℕ) : ℚ) / ((2 : ℕ) : ℚ) := rfl
    rw [h2]; norm_num
  have hmatch : stringMatch "raise blinds"
      [modelDump { rbSignifier with status := .deprecated }] 10 false =
      .ok [{ signifier_id := "s1", similarity := 1,
             matched_tokens := ["raise", "blinds"] }] := by
    unfold stringMatch
    rw [if_neg (by decide), if_neg (by decide)]
    simp only [List.filterMap_cons, List.filterMap_nil]
    rw [hsim]
    rw [if_pos (by norm_num : (1 : ℚ) > 0)]
    rfl
  have hlist : SignifierRegistry.listSignifiers
      (registryRun emptyStore deprecatedStoreOps) none none 10000 0 =
      [{ rbSignifier with status := .deprecated }] := rfl
  unfold executeIntentMatching
  dsimp only
  rw [hlist]
  have hdump : ([{ rbSignifier with status := SignifierStatus.deprecated }]).map modelDump =
      [modelDump { rbSignifier with status := .deprecated }] := rfl
  rw [hdump, hmatch]
  rfl

/-! ### C1 — the inverted property index across registry histories -/

/-- Lookup in a raw index association list. -/
def lookupIdx (idx : List ((String × String) × List String))
    (key : String × String) : List String :=
  ((idx.find? (fun e => e.1 = key)).map (·.2)).getD []

theorem indexLookup_eq_lookupIdx (st : StoreState) (key : String × String) :
    MemoryStore.indexLookup st key = lookupIdx st.property_index key := rfl

theorem lookupIdx_eq_nil_of_forall (idx : List ((String × String) × List String))
    (key : String × String) (h : ∀ e ∈ idx, e.1 ≠ key) :
    lookupIdx idx key = [] := by
  unfold lookupIdx
  have : idx.find? (fun e => e.1 = key) = none :=
    List.find?_eq_none.2 (fun e he => by simp [h e he])
  rw [this]
  rfl

theorem storeJsonDocument_property_index (st : StoreState) (s : Signifier) :
    (MemoryStore.storeJsonDocument st s).property_index = st.property_index := by
  unfold MemoryStore.storeJsonDocument
  split <;> rfl

theorem storeRdfGraph_ok (st : StoreState) (i : String) (v : Nat) (d : RdfText)
    (st' : StoreState) (h : MemoryStore.storeRdfGraph st i v d = .ok st') :
    st'.docs = st.docs ∧ st'.property_index = st.property_index := by
  unfold MemoryStore.storeRdfGraph at h
  cases d with
  | none => exact absurd h (by simp)
  | some g =>
      dsimp only at h
      by_cases hk : st.rdf.any (fun e => e.1 = (i, v))
      · rw [if_pos hk] at h
        simp only [Except.ok.injEq] at h
        subst h
        exact ⟨rfl, rfl⟩
      · rw [if_neg hk] at h
        simp only [Except.ok.injEq] at h
        subst h
        exact ⟨rfl, rfl⟩

theorem updatePropertyIndex_docs (st : StoreState) (s : Signifier) :
    (MemoryStore.updatePropertyIndex st s).docs = st.docs := rfl

/-- The document lookup after a document write: the written id maps to
the new document, every other id is untouched. -/
theorem getJson_storeJson (st : StoreState) (s : Signifier) (id : String) :
    MemoryStore.getJsonDocument (MemoryStore.storeJsonDocument st s) id =
      if id = s.signifier_id then some s else MemoryStore.getJsonDocument st id := by
  unfold MemoryStore.storeJsonDocument MemoryStore.getJsonDocument
  by_cases hex : st.docs.any (fun e => e.1 = s.signifier_id)
  · rw [if_pos hex]
    dsimp only
    cases hf : st.docs.find? (fun e => e.1 = id) with
    | none =>
        have hnone : (st.docs.map (fun e =>
            if e.1 = s.signifier_id then (e.1, s) else e)).find?
            (fun e => e.1 = id) = none := by
          apply List.find?_eq_none.2
          intro e he
          obtain ⟨e0, he0, rfl⟩ := List.mem_map.1 he
          have h0 := List.find?_eq_none.1 hf e0 he0
          by_cases hcase : e0.1 = s.signifier_id <;> simpa [hcase] using h0
        rw [hnone]
        by_cases hid : id = s.signifier_id
        · subst hid
          obtain ⟨e0, he0, hkey⟩ := List.any_eq_true.1 hex
          have := List.find?_eq_none.1 hf e0 he0
          simp at hkey this
          exact absurd hkey this
        · rw [if_neg hid]
    | some e =>
        have hkey : e.1 = id := by simpa using List.find?_some hf
        have hfm : (st.docs.map (fun e =>
            if e.1 = s.signifier_id then (e.1, s) else e)).find?
            (fun e => e.1 = id) =
            some (if e.1 = s.signifier_id then (e.1, s) else e) := by
          rw [List.find?_map]
          have hpg : ((fun e => decide (e.1 = id)) ∘ (fun e =>
              if e.1 = s.signifier_id then (e.1, s) else e)) =
              (fun (e : String × Signifier) => decide (e.1 = id)) := by
            funext e0
            by_cases hc : e0.1 = s.signifier_id <;> simp [hc]
          rw [hpg, hf]
          rfl
        rw [hfm]
        by_cases hid : id = s.signifier_id
        · subst hid
          rw [hkey]
          simp
        · have : ¬ (e.1 = s.signifier_id) := by rw [hkey]; exact hid
          rw [if_neg this, if_neg hid]
  · rw [if_neg hex]
    dsimp only
    rw [List.find?_append]
    by_cases hid : id = s.signifier_id
    · subst hid
      have hnone : st.docs.find? (fun e => e.1 = s.signifier_id) = none := by
        apply List.find?_eq_none.2
        intro e he
        intro hp
        exact hex (List.any_eq_true.2 ⟨e, he, hp⟩)
      rw [hnone]
      simp
    · have hsingle : ([(s.signifier_id, s)].find? (fun e => e.1 = id)) = none := by
        simp [List.find?_cons, Ne.symm hid]
      rw [hsingle]
      rw [if_neg hid]
      cases st.docs.find? (fun e => e.1 = id) <;> rfl

/-- Membership after one index insertion: the inserted id joins the
inserted key's entry, everything else is unchanged. -/
theorem mem_lookupIdx_indexAdd (idx : List ((String × String) × List String))
    (key : String × String) (sid : String) (key' : String × String) (id' : String) :
    id' ∈ lookupIdx (MemoryStore.indexAdd idx key sid) key' ↔
      id' ∈ lookupIdx idx key' ∨ (key' = key ∧ id' = sid) := by
  unfold MemoryStore.indexAdd
  by_cases hex : idx.any (fun e => e.1 = key)
  · rw [if_pos hex]
    have hpg : ((fun e => decide (e.1 = key')) ∘ (fun e =>
        if e.1 = key then (e.1, if e.2.contains sid then e.2 else e.2 ++ [sid]) else e)) =
        (fun (e : (String × String) × List String) => decide (e.1 = key')) := by
      funext e0
      by_cases hc : e0.1 = key <;> simp [hc]
    unfold lookupIdx
    rw [List.find?_map, hpg]
    cases hf : idx.find? (fun e => e.1 = key') with
    | none =>
        simp only [Option.map_none', Option.getD_none, List.not_mem_nil, false_iff]
        push_neg
        constructor
        · simp
        · intro hkk
          exfalso
          obtain ⟨e0, he0, hkey⟩ := List.any_eq_true.1 hex
          have hne := List.find?_eq_none.1 hf e0 he0
          simp at hkey hne
          rw [hkk] at hne
          exact hne hkey
    | some e =>
        have hkey : e.1 = key' := by simpa using List.find?_some hf
        simp only [Option.map_some', Option.getD_some]
        by_cases hc : e.1 = key
        · have hkk : key' = key := by rw [← hkey, hc]
          rw [if_pos hc]
          by_cases hmem : e.2.contains sid
          · rw [if_pos hmem]
            have hsid : sid ∈ e.2 := by simpa [List.elem_iff] using hmem
            simp only [hkk, true_and]
            constructor
            · exact fun h => Or.inl h
            · rintro (h | rfl)
              · exact h
              · exact hsid
          · rw [if_neg hmem]
            simp [hkk]
        · have hkk : ¬ (key' = key) := by rw [← hkey]; exact hc
          rw [if_neg hc]
          simp [hkk]
  · rw [if_neg hex]
    unfold lookupIdx
    rw [List.find?_append]
    by_cases hkk : key' = key
    · subst hkk
      have hnone : idx.find? (fun e => e.1 = key') = none := by
        apply List.find?_eq_none.2
        intro e he hp
        exact hex (List.any_eq_true.2 ⟨e, he, hp⟩)
      rw [hnone]
      simp [hnone]
    · have hsingle : ([(key, [sid])].find? (fun e => e.1 = key')) = none := by
        have : ¬ ((key, [sid]).1 = key') := fun h => hkk h.symm
        simp [List.find?_cons, this]
      rw [hsingle]
      simp only [Option.or_none]
      simp [hkk]

/-- Membership after indexing all keys of a signifier. -/
theorem mem_lookupIdx_foldl (keys : List (String × String)) (sid : String)
    (idx : List ((String × String) × List String)) (key' : String × String)
    (id' : String) :
    id' ∈ lookupIdx (keys.foldl (fun i k => MemoryStore.indexAdd i k sid) idx) key' ↔
      id' ∈ lookupIdx idx key' ∨ (key' ∈ keys ∧ id' = sid) := by
  induction keys generalizing idx with
  | nil => simp
  | cons k ks ih =>
      rw [List.foldl_cons, ih, mem_lookupIdx_indexAdd]
      simp only [List.mem_cons]
      constructor
      · rintro ((h | ⟨rfl, rfl⟩) | ⟨hks, rfl⟩)
        · exact Or.inl h
        · exact Or.inr ⟨Or.inl rfl, rfl⟩
        · exact Or.inr ⟨Or.inr hks, rfl⟩
      · rintro (h | ⟨(rfl | hks), rfl⟩)
        · exact Or.inl (Or.inl h)
        · exact Or.inl (Or.inr ⟨rfl, rfl⟩)
        · exact Or.inr ⟨hks, rfl⟩

/-- Membership in the index after `update_property_index`. -/
theorem mem_indexLookup_updatePropertyIndex (st : StoreState) (s : Signifier)
    (key : String × String) (id' : String) :
    id' ∈ MemoryStore.indexLookup (MemoryStore.updatePropertyIndex st s) key ↔
      id' ∈ MemoryStore.indexLookup st key ∨
        (key ∈ s.get_property_keys ∧ id' = s.signifier_id) := by
  rw [indexLookup_eq_lookupIdx, indexLookup_eq_lookupIdx]
  exact mem_lookupIdx_foldl s.get_property_keys s.signifier_id st.property_index key id'

/-- `indexAdd` preserves the entry keys when the key exists, and appends
the new key otherwise. -/
theorem indexAdd_keys (idx : List ((String × String) × List String))
    (key : String × String) (sid : String) :
    ((MemoryStore.indexAdd idx key sid).map (·.1)) =
      (if idx.any (fun e => e.1 = key) then idx.map (·.1)
       else idx.map (·.1) ++ [key]) := by
  unfold MemoryStore.indexAdd
  by_cases hex : idx.any (fun e => e.1 = key)
  · rw [if_pos hex, if_pos hex, List.map_map]
    apply List.map_congr_left
    intro e _
    by_cases hc : e.1 = key <;> simp [hc]
  · rw [if_neg hex, if_neg hex]
    simp

/-- `indexAdd` preserves key uniqueness. -/
theorem indexAdd_nodup (idx : List ((String × String) × List String))
    (key : String × String) (sid : String)
    (h : (idx.map (·.1)).Nodup) :
    (((MemoryStore.indexAdd idx key sid)).map (·.1)).Nodup := by
  rw [indexAdd_keys]
  by_cases hex : idx.any (fun e => e.1 = key)
  · rwa [if_pos hex]
  · rw [if_neg hex]
    have hnot : key ∉ idx.map (·.1) := by
      intro hmem
      obtain ⟨e, he, hkey⟩ := List.mem_map.1 hmem
      exact hex (List.any_eq_true.2 ⟨e, he, by simp [hkey]⟩)
    have hnot' : ∀ x, (key, x) ∉ idx :=
      fun x hx => hnot (List.mem_map.2 ⟨(key, x), hx, rfl⟩)
    simpa [List.nodup_append] using ⟨h, hnot'⟩

/-- The foldl of `indexAdd` preserves key uniqueness. -/
theorem foldl_indexAdd_nodup (keys : List (String × String)) (sid : String)
    (idx : List ((String × String) × List String))
    (h : (idx.map (·.1)).Nodup) :
    (((keys.foldl (fun i k => MemoryStore.indexAdd i k sid) idx)).map (·.1)).Nodup := by
  induction keys generalizing idx with
  | nil => exact h
  | cons k ks ih =>
      rw [List.foldl_cons]
      exact ih _ (indexAdd_nodup idx k sid h)

/-- Document lookup after a delete. -/
theorem find?_filter_ne (l : List (String × Signifier)) (sid id : String) :
    ((l.filter (fun e => e.1 ≠ sid)).find? (fun e => e.1 = id)).map (·.2) =
      if id = sid then none else (l.find? (fun e => e.1 = id)).map (·.2) := by
  induction l with
  | nil => split <;> rfl
  | cons e t ih =>
      by_cases hke : e.1 = sid
      · rw [List.filter_cons, if_neg (by simp [hke])]
        rw [ih]
        by_cases hid : id = sid
        · rw [if_pos hid, if_pos hid]
        · rw [if_neg hid, if_neg hid]
          rw [List.find?_cons_of_neg]
          simp only [decide_eq_true_eq]
          rw [hke]
          exact fun hh => hid hh.symm
      · rw [List.filter_cons, if_pos (by simp [hke])]
        by_cases hei : e.1 = id
        · have hid : ¬ (id = sid) := by rw [← hei]; exact hke
          rw [if_neg hid]
          rw [List.find?_cons_of_pos _ (by simpa using hei),
            List.find?_cons_of_pos _ (by simpa using hei)]
        · rw [List.find?_cons_of_neg _ (by simpa using hei), ih]
          by_cases hid : id = sid
          · rw [if_pos hid, if_pos hid]
          · rw [if_neg hid, if_neg hid]
            rw [List.find?_cons_of_neg _ (by simpa using hei)]

theorem getJson_delete (st : StoreState) (sid id : String) :
    MemoryStore.getJsonDocument (MemoryStore.deleteSignifier st sid) id =
      if id = sid then none else MemoryStore.getJsonDocument st id := by
  unfold MemoryStore.deleteSignifier MemoryStore.getJsonDocument
  dsimp only
  exact find?_filter_ne st.docs sid id

/-- Index membership after pruning one id, on an index with unique
keys. -/
theorem mem_lookupIdx_deleteIdx (idx : List ((String × String) × List String))
    (sid : String) (key : String × String) (id' : String)
    (hnd : (idx.map (·.1)).Nodup) :
    id' ∈ lookupIdx ((idx.map (fun e => (e.1, e.2.filter (fun i => i ≠ sid)))).filter
        (fun e => !e.2.isEmpty)) key ↔
      id' ∈ lookupIdx idx key ∧ id' ≠ sid := by
  induction idx with
  | nil => simp [lookupIdx]
  | cons e rest ih =>
      have hnd' : (rest.map (·.1)).Nodup := (List.nodup_cons.1 hnd).2
      have hknotin : e.1 ∉ rest.map (·.1) := (List.nodup_cons.1 hnd).1
      by_cases hk : e.1 = key
      · by_cases hemp : (e.2.filter (fun i => i ≠ sid)).isEmpty
        · -- the pruned entry is dropped; no other entry has this key
          have hrest : lookupIdx ((rest.map (fun e =>
              (e.1, e.2.filter (fun i => i ≠ sid)))).filter
              (fun e => !e.2.isEmpty)) key = [] := by
            apply lookupIdx_eq_nil_of_forall
            intro x hx
            have hx1 := (List.mem_filter.1 hx).1
            obtain ⟨z, hz, rfl⟩ := List.mem_map.1 hx1
            intro hzk
            apply hknotin
            rw [hk]
            rw [← hzk]
            exact List.mem_map.2 ⟨z, hz, rfl⟩
          have hall : ∀ x ∈ e.2, x = sid := by
            intro x hx
            by_contra hne
            have : x ∈ e.2.filter (fun i => i ≠ sid) :=
              List.mem_filter.2 ⟨hx, by simpa using hne⟩
            rw [List.isEmpty_iff.1 hemp] at this
            simp at this
          simp only [List.map_cons, List.filter_cons]
          rw [if_neg (by simpa using hemp)]
          rw [hrest]
          constructor
          · intro h; exact absurd h (by simp)
          · rintro ⟨hmem, hne⟩
            exfalso
            have : id' ∈ e.2 := by
              unfold lookupIdx at hmem
              rw [List.find?_cons_of_pos _ (by simpa using hk)] at hmem
              simpa using hmem
            exact hne (hall id' this)
        · -- the pruned entry survives, at the front
          simp only [List.map_cons, List.filter_cons]
          rw [if_pos (by simpa using hemp)]
          unfold lookupIdx
          rw [List.find?_cons_of_pos _ (by simpa using hk),
            List.find?_cons_of_pos _ (by simpa using hk)]
          simp only [Option.map_some', Option.getD_some]
          rw [List.mem_filter]
          simp
      · -- a different key: both sides defer to the rest
        have hstep : lookupIdx ((e.1, e.2.filter (fun i => i ≠ sid)) ::
            (rest.map (fun e => (e.1, e.2.filter (fun i => i ≠ sid)))).filter
              (fun e => !e.2.isEmpty)) key =
            lookupIdx ((rest.map (fun e =>
              (e.1, e.2.filter (fun i => i ≠ sid)))).filter
              (fun e => !e.2.isEmpty)) key := by
          unfold lookupIdx
          rw [List.find?_cons_of_neg _ (by simpa using hk)]
        simp only [List.map_cons, List.filter_cons]
        by_cases hemp : (e.2.filter (fun i => i ≠ sid)).isEmpty
        · rw [if_neg (by simpa using hemp)]
          rw [ih hnd']
          unfold lookupIdx
          rw [List.find?_cons_of_neg _ (by simpa using hk)]
        · rw [if_pos (by simpa using hemp)]
          rw [hstep, ih hnd']
          unfold lookupIdx
          rw [List.find?_cons_of_neg _ (by simpa using hk)]

/-- Index membership after `delete_signifier`. -/
theorem mem_indexLookup_delete (st : StoreState) (sid : String)
    (key : String × String) (id' : String)
    (hnd : (st.property_index.map (·.1)).Nodup) :
    id' ∈ MemoryStore.indexLookup (MemoryStore.deleteSignifier st sid) key ↔
      id' ∈ MemoryStore.indexLookup st key ∧ id' ≠ sid := by
  rw [indexLookup_eq_lookupIdx, indexLookup_eq_lookupIdx]
  exact mem_lookupIdx_deleteIdx st.property_index sid key id' hnd

/-- Delete preserves key uniqueness of the index. -/
theorem delete_index_nodup (st : StoreState) (sid : String)
    (hnd : (st.property_index.map (·.1)).Nodup) :
    (((MemoryStore.deleteSignifier st sid).property_index).map (·.1)).Nodup := by
  unfold MemoryStore.deleteSignifier
  dsimp only
  have hsub : ((st.property_index.map (fun e =>
      (e.1, e.2.filter (fun i => i ≠ sid)))).filter
      (fun e => !e.2.isEmpty)).map (·.1) |>.Sublist
      ((st.property_index.map (fun e =>
        (e.1, e.2.filter (fun i => i ≠ sid)))).map (·.1)) :=
    (List.filter_sublist _).map _
  have hmapped : ((st.property_index.map (fun e =>
      (e.1, e.2.filter (fun i => i ≠ sid)))).map (·.1)) =
      st.property_index.map (·.1) := by
    rw [List.map_map]
    rfl
  rw [hmapped] at hsub
  exact hnd.sublist hsub

/-- The inductive invariant of the registry: index keys are unique,
every indexed id is stored, and every stored document's (artifact,
property) pairs are indexed. -/
def registryInv (st : StoreState) : Prop :=
  (st.property_index.map (·.1)).Nodup ∧
  (∀ key id, id ∈ MemoryStore.indexLookup st key →
    (MemoryStore.getJsonDocument st id).isSome) ∧
  (∀ id s, MemoryStore.getJsonDocument st id = some s →
    ∀ key ∈ s.get_property_keys, id ∈ MemoryStore.indexLookup st key)

/-- `registryInv` only depends on the documents and the index. -/
theorem registryInv_of_eq (st st' : StoreState) (hdocs : st'.docs = st.docs)
    (hidx : st'.property_index = st.property_index) (h : registryInv st) :
    registryInv st' := by
  have hjson : ∀ id, MemoryStore.getJsonDocument st' id =
      MemoryStore.getJsonDocument st id := by
    intro id
    unfold MemoryStore.getJsonDocument
    rw [hdocs]
  have hlook : ∀ key, MemoryStore.indexLookup st' key =
      MemoryStore.indexLookup st key := by
    intro key
    unfold MemoryStore.indexLookup
    rw [hidx]
  refine ⟨by rw [hidx]; exact h.1, ?_, ?_⟩
  · intro key id hm
    rw [hjson]
    exact h.2.1 key id (by rwa [hlook] at hm)
  · intro id s hs key hk
    rw [hlook]
    exact h.2.2 id s (by rwa [hjson] at hs) key hk

/-- The document-write-plus-index-update core of `create` and `update`
preserves the invariant. -/
theorem writeCore_inv (st : StoreState) (s : Signifier) (h : registryInv st) :
    registryInv
      (MemoryStore.updatePropertyIndex (MemoryStore.storeJsonDocument st s) s) := by
  set st1 := MemoryStore.storeJsonDocument st s with hst1
  have hidx1 : st1.property_index = st.property_index :=
    storeJsonDocument_property_index st s
  have hlook1 : ∀ key, MemoryStore.indexLookup st1 key =
      MemoryStore.indexLookup st key := by
    intro key
    unfold MemoryStore.indexLookup
    rw [hidx1]
  have hjson2 : ∀ id, MemoryStore.getJsonDocument
      (MemoryStore.updatePropertyIndex st1 s) id =
      MemoryStore.getJsonDocument st1 id := fun _ => rfl
  refine ⟨?_, ?_, ?_⟩
  · unfold MemoryStore.updatePropertyIndex
    dsimp only
    apply foldl_indexAdd_nodup
    rw [hidx1]
    exact h.1
  · intro key id hm
    rw [hjson2, getJson_storeJson]
    rw [mem_indexLookup_updatePropertyIndex, hlook1] at hm
    rcases hm with hm | ⟨_, rfl⟩
    · have := h.2.1 key id hm
      by_cases hid : id = s.signifier_id
      · rw [if_pos hid]; rfl
      · rw [if_neg hid]; exact this
    · rw [if_pos rfl]; rfl
  · intro id s' hs key hk
    rw [hjson2, getJson_storeJson] at hs
    rw [mem_indexLookup_updatePropertyIndex, hlook1]
    by_cases hid : id = s.signifier_id
    · rw [if_pos hid] at hs
      simp only [Option.some.injEq] at hs
      subst hs
      exact Or.inr ⟨hk, hid⟩
    · rw [if_neg hid] at hs
      exact Or.inl (h.2.2 id s' hs key hk)

/-- A successful `create` preserves the invariant. -/
theorem create_ok_inv (st : StoreState) (s : Signifier) (r : Option RdfText)
    (st' : StoreState) (h : registryInv st)
    (hc : SignifierRegistry.create st s r = .ok st') : registryInv st' := by
  unfold SignifierRegistry.create at hc
  by_cases hex : (MemoryStore.getJsonDocument st s.signifier_id).isSome
  · rw [if_pos hex] at hc
    exact absurd hc (by simp)
  · rw [if_neg hex] at hc
    dsimp only [SignifierRegistry.normalizeSignifier] at hc
    have hcore := writeCore_inv st s h
    set st2 := MemoryStore.updatePropertyIndex (MemoryStore.storeJsonDocument st s) s
      with hst2
    cases r with
    | none =>
        dsimp only at hc
        cases hr : MemoryStore.storeRdfGraph st2 s.signifier_id s.version
            (SignifierRegistry.generateRdf s) with
        | error e => rw [hr] at hc; exact absurd hc (by simp)
        | ok st3 =>
            rw [hr] at hc
            simp only [Except.ok.injEq] at hc
            obtain ⟨hd, hi⟩ := storeRdfGraph_ok _ _ _ _ _ hr
            exact hc ▸ registryInv_of_eq st2 st3 hd hi hcore
    | some d =>
        dsimp only at hc
        cases hr : MemoryStore.storeRdfGraph st2 s.signifier_id s.version d with
        | error e =>
            rw [hr] at hc
            simp only [Except.ok.injEq] at hc
            exact hc ▸ hcore
        | ok st3 =>
            rw [hr] at hc
            simp only [Except.ok.injEq] at hc
            obtain ⟨hd, hi⟩ := storeRdfGraph_ok _ _ _ _ _ hr
            exact hc ▸ registryInv_of_eq st2 st3 hd hi hcore

/-- A raising `create` also preserves the invariant on the store the
error carries: a raise happens either before any write or after the
document-plus-index core, which preserves it. -/
theorem create_err_inv (st : StoreState) (s : Signifier) (r : Option RdfText)
    (est : String × StoreState) (h : registryInv st)
    (hc : SignifierRegistry.create st s r = .error est) : registryInv est.2 := by
  unfold SignifierRegistry.create at hc
  by_cases hex : (MemoryStore.getJsonDocument st s.signifier_id).isSome
  · rw [if_pos hex] at hc
    simp only [Except.error.injEq] at hc
    rw [← hc]
    exact h
  · rw [if_neg hex] at hc
    dsimp only [SignifierRegistry.normalizeSignifier] at hc
    have hcore := writeCore_inv st s h
    set st2 := MemoryStore.updatePropertyIndex (MemoryStore.storeJsonDocument st s) s
      with hst2
    cases r with
    | none =>
        dsimp only at hc
        cases hr : MemoryStore.storeRdfGraph st2 s.signifier_id s.version
            (SignifierRegistry.generateRdf s) with
        | ok st3 => rw [hr] at hc; exact absurd hc (by simp)
        | error e =>
            rw [hr] at hc
            simp only [Except.error.injEq] at hc
            rw [← hc]
            exact hcore
    | some d =>
        dsimp only at hc
        cases hr : MemoryStore.storeRdfGraph st2 s.signifier_id s.version d with
        | ok st3 => rw [hr] at hc; exact absurd hc (by simp)
        | error e => rw [hr] at hc; exact absurd hc (by simp)

/-- A successful `update` preserves the invariant. -/
theorem update_ok_inv (st : StoreState) (s : Signifier) (b : Bool)
    (st' : StoreState) (h : registryInv st)
    (hc : SignifierRegistry.update st s b = .ok st') : registryInv st' := by
  unfold SignifierRegistry.update at hc
  cases hg : MemoryStore.getJsonDocument st s.signifier_id with
  | none => rw [hg] at hc; exact absurd hc (by simp)
  | some existing =>
      rw [hg] at hc
      dsimp only [SignifierRegistry.normalizeSignifier] at hc
      set s1 := if b then { s with version := existing.version + 1 } else s with hs1
      have hcore := writeCore_inv st s1 h
      cases hr : MemoryStore.storeRdfGraph
          (MemoryStore.updatePropertyIndex (MemoryStore.storeJsonDocument st s1) s1)
          s1.signifier_id s1.version
          (SignifierRegistry.generateRdf s1) with
      | error e => rw [hr] at hc; exact absurd hc (by simp)
      | ok st3 =>
          rw [hr] at hc
          simp only [Except.ok.injEq] at hc
          obtain ⟨hd, hi⟩ := storeRdfGraph_ok _ _ _ _ _ hr
          exact hc ▸ registryInv_of_eq _ st3 hd hi hcore

/-- A raising `update` also preserves the invariant on the store the
error carries. -/
theorem update_err_inv (st : StoreState) (s : Signifier) (b : Bool)
    (est : String × StoreState) (h : registryInv st)
    (hc : SignifierRegistry.update st s b = .error est) : registryInv est.2 := by
  unfold SignifierRegistry.update at hc
  cases hg : MemoryStore.getJsonDocument st s.signifier_id with
  | none =>
      rw [hg] at hc
      simp only [Except.error.injEq] at hc
      rw [← hc]
      exact h
  | some existing =>
      rw [hg] at hc
      dsimp only [SignifierRegistry.normalizeSignifier] at hc
      set s1 := if b then { s with version := existing.version + 1 } else s with hs1
      have hcore := writeCore_inv st s1 h
      cases hr : MemoryStore.storeRdfGraph
          (MemoryStore.updatePropertyIndex (MemoryStore.storeJsonDocument st s1) s1)
          s1.signifier_id s1.version
          (SignifierRegistry.generateRdf s1) with
      | ok st3 => rw [hr] at hc; exact absurd hc (by simp)
      | error e =>
          rw [hr] at hc
          simp only [Except.error.injEq] at hc
          rw [← hc]
          exact hcore

/-- Delete preserves the invariant. -/
theorem delete_inv (st : StoreState) (sid : String) (h : registryInv st) :
    registryInv (MemoryStore.deleteSignifier st sid) := by
  refine ⟨delete_index_nodup st sid h.1, ?_, ?_⟩
  · intro key id hm
    rw [mem_indexLookup_delete st sid key id h.1] at hm
    rw [getJson_delete, if_neg hm.2]
    exact h.2.1 key id hm.1
  · intro id s hs key hk
    rw [getJson_delete] at hs
    by_cases hid : id = sid
    · rw [if_pos hid] at hs; exact absurd hs (by simp)
    · rw [if_neg hid] at hs
      rw [mem_indexLookup_delete st sid key id h.1]
      exact ⟨h.2.2 id s hs key hk, hid⟩

/-- Every registry operation preserves the invariant. -/
theorem registryStep_inv (st : StoreState) (op : RegistryOp)
    (h : registryInv st) : registryInv (registryStep st op) := by
  cases op with
  | create s r =>
      show registryInv (match SignifierRegistry.create st s r with
        | .ok st' => st' | .error est => est.2)
      cases hc : SignifierRegistry.create st s r with
      | error est => exact create_err_inv st s r est h hc
      | ok st' => exact create_ok_inv st s r st' h hc
  | update s b =>
      show registryInv (match SignifierRegistry.update st s b with
        | .ok st' => st' | .error est => est.2)
      cases hc : SignifierRegistry.update st s b with
      | error est => exact update_err_inv st s b est h hc
      | ok st' => exact update_ok_inv st s b st' h hc
  | delete i => exact delete_inv st i h
  | updateStatus i t =>
      show registryInv (match SignifierRegistry.updateStatus st i t with
        | .ok st' => st' | .error est => est.2)
      cases hc : SignifierRegistry.updateStatus st i t with
      | error est =>
          unfold SignifierRegistry.updateStatus at hc
          cases hg : MemoryStore.getJsonDocument st i with
          | none => rw [hg] at hc; exact absurd hc (by simp)
          | some s =>
              rw [hg] at hc
              exact update_err_inv st { s with status := t } false est h hc
      | ok st' =>
          unfold SignifierRegistry.updateStatus at hc
          cases hg : MemoryStore.getJsonDocument st i with
          | none =>
              rw [hg] at hc
              simp only [Except.ok.injEq] at hc
              exact hc ▸ h
          | some s =>
              rw [hg] at hc
              exact update_ok_inv st { s with status := t } false st' h hc

/-- Histories preserve the invariant. -/
theorem registryRun_inv (ops : List RegistryOp) : ∀ st, registryInv st →
    registryInv (registryRun st ops) := by
  induction ops with
  | nil => exact fun st h => h
  | cons op rest ih =>
      intro st h
      exact ih (registryStep st op) (registryStep_inv st op h)

/-- The empty store satisfies the invariant. -/
theorem emptyStore_inv : registryInv emptyStore := by
  refine ⟨by simp [emptyStore], ?_, ?_⟩
  · intro key id hm
    simp [emptyStore, MemoryStore.indexLookup, lookupIdx] at hm
  · intro id s hs
    simp [emptyStore, MemoryStore.getJsonDocument] at hs

/-- A successful `update` only inserts into the index; no entry loses a
member. -/
theorem update_index_monotone (st : StoreState) (s : Signifier) (b : Bool)
    (st' : StoreState) (hc : SignifierRegistry.update st s b = .ok st')
    (key : String × String) :
    MemoryStore.indexLookup st key ⊆ MemoryStore.indexLookup st' key := by
  unfold SignifierRegistry.update at hc
  cases hg : MemoryStore.getJsonDocument st s.signifier_id with
  | none => rw [hg] at hc; exact absurd hc (by simp)
  | some existing =>
      rw [hg] at hc
      dsimp only [SignifierRegistry.normalizeSignifier] at hc
      set s1 := if b then { s with version := existing.version + 1 } else s with hs1
      cases hr : MemoryStore.storeRdfGraph
          (MemoryStore.updatePropertyIndex (MemoryStore.storeJsonDocument st s1) s1)
          s1.signifier_id s1.version
          (SignifierRegistry.generateRdf s1) with
      | error e => rw [hr] at hc; exact absurd hc (by simp)
      | ok st3 =>
          rw [hr] at hc
          simp only [Except.ok.injEq] at hc
          obtain ⟨_, hi⟩ := storeRdfGraph_ok _ _ _ _ _ hr
          intro x hx
          have hst1 : MemoryStore.indexLookup
              (MemoryStore.storeJsonDocument st s1) key =
              MemoryStore.indexLookup st key := by
            unfold MemoryStore.indexLookup
            rw [storeJsonDocument_property_index]
          have hx2 : x ∈ MemoryStore.indexLookup
              (MemoryStore.updatePropertyIndex
                (MemoryStore.storeJsonDocument st s1) s1) key := by
            rw [mem_indexLookup_updatePropertyIndex, hst1]
            exact Or.inl hx
          have hx3 : MemoryStore.indexLookup st3 key =
              MemoryStore.indexLookup
                (MemoryStore.updatePropertyIndex
                  (MemoryStore.storeJsonDocument st s1) s1) key := by
            unfold MemoryStore.indexLookup
            rw [hi]
          rw [← hc, hx3]
          exact hx2

/-- C1 amended: across every create/update/delete/update-status history
from an empty store, the inverted index contains only ids of stored
signifiers, and contains every id under every (artifact, property) pair
of its *current* version — but `update` only inserts the new version's
entries and removes nothing, so the index can also retain pairs of
earlier versions (it is a superset of the claim's "exactly" set, as the
counterexample shows). -/
theorem C1_property_index_superset (ops : List RegistryOp) :
    (∀ key id, id ∈ MemoryStore.indexLookup (registryRun emptyStore ops) key →
      (MemoryStore.getJsonDocument (registryRun emptyStore ops) id).isSome) ∧
    (∀ id s, MemoryStore.getJsonDocument (registryRun emptyStore ops) id = some s →
      ∀ key ∈ s.get_property_keys,
        id ∈ MemoryStore.indexLookup (registryRun emptyStore ops) key) ∧
    (∀ st s b st', SignifierRegistry.update st s b = .ok st' →
      ∀ key, MemoryStore.indexLookup st key ⊆ MemoryStore.indexLookup st' key) := by
  have hinv := registryRun_inv ops emptyStore emptyStore_inv
  exact ⟨hinv.2.1, hinv.2.2, fun st s b st' hc key => update_index_monotone st s b st' hc key⟩

/-- A signifier with one structured condition on `("a", "p")`. -/
def pairSignifier : Signifier :=
  { signifier_id := "s1",
    intent := { nl_text := "turn on the light" },
    context := { structured_conditions :=
      [{ artifact := "a", property_affordance := "p",
         value_conditions := [{ operator := "greaterThan", value := .pint 10 }] }] },
    affordance_uri := "http://example.org/aff#light",
    provenance := { created_by := "tester" } }

/-- The same signifier with its condition removed. -/
def noPairSignifier : Signifier :=
  { signifier_id := "s1",
    intent := { nl_text := "turn on the light" },
    context := {},
    affordance_uri := "http://example.org/aff#light",
    provenance := { created_by := "tester" } }

/-- Create with the condition, then update in place without it. -/
def c1Ops : List RegistryOp :=
  [.create pairSignifier none, .update noPairSignifier false]

/-- C1 counterexample: after an update that drops the ("a", "p")
condition, the index still maps ("a", "p") to a set containing "s1",
although the current version of "s1" has no structured condition with
that pair — the index is *not* exactly the set the claim describes, and
update removed nothing. -/
theorem C1_counterexample :
    "s1" ∈ MemoryStore.indexLookup (registryRun emptyStore c1Ops) ("a", "p") ∧
    MemoryStore.getJsonDocument (registryRun emptyStore c1Ops) "s1" =
      some noPairSignifier ∧
    ("a", "p") ∉ noPairSignifier.get_property_keys := by
  refine ⟨by decide, rfl, by decide⟩

/-- Witness for C1 at a one-create history. -/
theorem C1_witness :
    (MemoryStore.getJsonDocument
      (registryRun emptyStore [RegistryOp.create pairSignifier none]) "s1").isSome = true :=
  (C1_property_index_superset [RegistryOp.create pairSignifier none]).1
    ("a", "p") "s1" (by decide)

/-! ### C4 — RDF graphs for stored documents -/

/-- C7 amended: a successful parse implies the presence (and
truthiness) of every predicate the code actually requires — the
`cashmere:Signifier` typing, `cashmere:signifies`,
`cashmere:hasIntentionDescription`, and the intent node's
`cashmere:hasStructuredDescription` literal with decodable JSON.
`cashmere:recommendsContext` is *not* among them: it is optional, and
its absence yields an empty context (see the counterexample). -/
theorem C7_mandatory_predicates (jsonLoads : String → Option Json)
    (g : RdfGraph) (s : Signifier)
    (h : RepresentationService.parseRdfSignifier jsonLoads g = .ok s) :
    ∃ root rest, subjectsOf g rdfTypePred (.uri (cashmere "Signifier")) = root :: rest ∧
    ∃ aff, valueOf g root (cashmere "signifies") = some aff ∧ nodeFalsy aff = false ∧
    ∃ intentNode,
      valueOf g root (cashmere "hasIntentionDescription") = some intentNode ∧
      nodeFalsy intentNode = false ∧
    ∃ intentNl,
      valueOf g intentNode (cashmere "hasStructuredDescription") = some intentNl ∧
      nodeFalsy intentNl = false ∧ (jsonLoads (nodeStr intentNl)).isSome = true := by
  unfold RepresentationService.parseRdfSignifier at h
  cases hsub : subjectsOf g rdfTypePred (.uri (cashmere "Signifier")) with
  | nil => rw [hsub] at h; exact absurd h (by simp)
  | cons root rest =>
      rw [hsub] at h
      dsimp only at h
      refine ⟨root, rest, rfl, ?_⟩
      cases haff : valueOf g root (cashmere "signifies") with
      | none => rw [haff] at h; exact absurd h (by simp)
      | some aff =>
          rw [haff] at h
          dsimp only at h
          by_cases hf1 : nodeFalsy aff
          · rw [if_pos hf1] at h; exact absurd h (by simp)
          · rw [if_neg hf1] at h
            refine ⟨aff, rfl, by simpa using hf1, ?_⟩
            cases hint : valueOf g root (cashmere "hasIntentionDescription") with
            | none => rw [hint] at h; exact absurd h (by simp)
            | some intentNode =>
                rw [hint] at h
                dsimp only at h
                by_cases hf2 : nodeFalsy intentNode
                · rw [if_pos hf2] at h; exact absurd h (by simp)
                · rw [if_neg hf2] at h
                  refine ⟨intentNode, rfl, by simpa using hf2, ?_⟩
                  cases hnl : valueOf g intentNode
                      (cashmere "hasStructuredDescription") with
                  | none => rw [hnl] at h; exact absurd h (by simp)
                  | some intentNl =>
                      rw [hnl] at h
                      dsimp only at h
                      by_cases hf3 : nodeFalsy intentNl
                      · rw [if_pos hf3] at h; exact absurd h (by simp)
                      · rw [if_neg hf3] at h
                        refine ⟨intentNl, rfl, by simpa using hf3, ?_⟩
                        cases hj : jsonLoads (nodeStr intentNl) with
                        | none => rw [hj] at h; exact absurd h (by simp)
                        | some d => rfl

/-- The JSON oracle of the C7 counterexample. -/
def c7Oracle : String → Option Json :=
  fun s => if s = "intent-json" then
    some (.jobj [("intent", .jstr "grasp the cup")]) else none

/-- A graph carrying the four required predicates but *no*
`cashmere:recommendsContext`. -/
def c7Graph : RdfGraph :=
  [ (.uri "http://example.org/sig#s1", rdfTypePred, .uri (cashmere "Signifier")),
    (.uri "http://example.org/sig#s1", cashmere "signifies",
      .uri "http://example.org/aff#grasp"),
    (.uri "http://example.org/sig#s1", cashmere "hasIntentionDescription", .bnode 1),
    (.bnode 1, cashmere "hasStructuredDescription", .lit "intent-json") ]

/-- C7 counterexample: parsing succeeds on a graph with no
`cashmere:recommendsContext` triple (the signifier gets an empty
context), refuting the claim that its absence fails with *InvalidRDF*
and that parsing succeeds only when it is present. -/
theorem C7_counterexample :
    valueOf c7Graph (.uri "http://example.org/sig#s1")
      (cashmere "recommendsContext") = none ∧
    RepresentationService.parseRdfSignifier c7Oracle c7Graph =
      .ok { signifier_id := "s1",
            version := 1,
            status := .active,
            intent := { nl_text := "grasp the cup",
                        structured := some (.jobj [("intent", .jstr "grasp the cup")]) },
            context := {},
            affordance_uri := "http://example.org/aff#grasp",
            provenance := { created_by := "system", source := "rdf_import" } } :=
  ⟨rfl, rfl⟩

/-- Witness for C7, applying the amended theorem at the concrete
graph. -/
theorem C7_witness :
    ∃ root rest, subjectsOf c7Graph rdfTypePred (.uri (cashmere "Signifier")) =
      root :: rest ∧
    ∃ aff, valueOf c7Graph root (cashmere "signifies") = some aff ∧
      nodeFalsy aff = false ∧
    ∃ intentNode,
      valueOf c7Graph root (cashmere "hasIntentionDescription") = some intentNode ∧
      nodeFalsy intentNode = false ∧
    ∃ intentNl,
      valueOf c7Graph intentNode (cashmere "hasStructuredDescription") = some intentNl ∧
      nodeFalsy intentNl = false ∧ (c7Oracle (nodeStr intentNl)).isSome = true :=
  C7_mandatory_predicates c7Oracle c7Graph
    { signifier_id := "s1",
      version := 1,
      status := .active,
      intent := { nl_text := "grasp the cup",
                  structured := some (.jobj [("intent", .jstr "grasp the cup")]) },
      context := {},
      affordance_uri := "http://example.org/aff#grasp",
      provenance := { created_by := "system", source := "rdf_import" } }
    rfl
